import Mathlib

/-!
Verification development for the python-paintbynumbers repository.

Shallow embedding of the geometric pipeline of the repository
(facet reduction, border segmentation, label placement, color
quantisation support code) translated from the Python sources in
`src/paintbynumbers`.  Machine integers are modelled as `Nat`/`Int`
(`Uint8Array2D.set` stores modulo 256, matching the TypeScript
`Uint8Array` semantics the class documents itself as wrapping);
Python `int(x)` on a float is truncation toward zero (`Int.tdiv`
for halving of integer sums); Python float comparisons of
`sqrt`-valued colour distances are modelled by comparing the exact
squared integer distances, which is equivalent because `sqrt` is
monotone and the squared RGB distances are integers below
3 * 255 ^ 2, whose square roots are separated by far more than one
double ulp.  Functions of the repository that are only called from
the sources but whose defining file is absent (the flood fill, the
in-bounds 4-neighbour enumeration, `PathPoint.get_neighbour`, the
seeded RNG) are modelled from the specification and marked
`Modelled from the spec:` in their doc comment.
-/

namespace PBN

/-- Wall orientations, from `core/types.py` (`OrientationEnum`). -/
inductive Orientation where
  | Left
  | Top
  | Right
  | Bottom
deriving DecidableEq, Repr

/-- A wall edge, from `core/types.py` (`PathPoint`): a pixel coordinate
plus the orientation of the pixel wall it denotes.  Equality compares
all three fields, as `PathPoint.__eq__` does. -/
structure PathPoint where
  x : Int
  y : Int
  orientation : Orientation
deriving DecidableEq, Repr

/-- Manhattan distance between two path points, from
`structs/point.py` (`Point.distance_to`); the orientation is ignored. -/
def PathPoint.distance_to (p q : PathPoint) : Nat :=
  (q.x - p.x).natAbs + (q.y - p.y).natAbs

/-- From `facetbordersegmenter.py` (`_is_outside_border_point`): whether
a point lies on the image frame. -/
def is_outside_border_point (p : PathPoint) (width height : Int) : Bool :=
  p.x == 0 || p.y == 0 || p.x == width - 1 || p.y == height - 1

/-- Python `int((a + b) / 2.0)` for integer `a`, `b`: exact halving then
truncation toward zero. -/
def pyHalf (a b : Int) : Int := Int.tdiv (a + b) 2

/-- The averaged midpoint of a pair of path points, from
`facetbordersegmenter.py` lines 218-221: coordinates truncated with
`int(...)`, orientation collapsed to `Left`. -/
def haarMid (a b : PathPoint) : PathPoint :=
  ⟨pyHalf a.x b.x, pyHalf a.y b.y, Orientation.Left⟩

/-- One pair step of the reduction loop of
`_reduce_segment_haar_wavelet` (lines 214-225): averaging the pair
unless outside-border skipping applies to the first (odd-indexed)
member of the pair, in which case both members are kept. -/
def haarPairBlock (skipOutsideBorders : Bool) (width height : Int)
    (a b : PathPoint) : List PathPoint :=
  if !skipOutsideBorders
      || (skipOutsideBorders && !(is_outside_border_point a width height)) then
    [haarMid a b]
  else
    [a, b]

/-- The loop `for i in range(1, len(newpath) - 2, 2)` of
`_reduce_segment_haar_wavelet`, applied to the list of points starting
at index 1: while at least three points remain (equivalently
`i <= n - 3`), process the pair at the front and advance by two. -/
def haarPairLoop (skipOutsideBorders : Bool) (width height : Int) :
    List PathPoint → List PathPoint
  | a :: b :: c :: rest =>
      haarPairBlock skipOutsideBorders width height a b
        ++ haarPairLoop skipOutsideBorders width height (c :: rest)
  | _ => []

/-- The pairs visited by the loop, in order (used to state which pairs
are exempted from averaging). -/
def haarPairList : List PathPoint → List (PathPoint × PathPoint)
  | a :: b :: c :: rest => (a, b) :: haarPairList (c :: rest)
  | _ => []

/-- `FacetBorderSegmenter._reduce_segment_haar_wavelet`
(`facetbordersegmenter.py` lines 188-230): paths of at most
`MIN_PATH_LENGTH_FOR_REDUCTION = 5` points are returned unchanged;
otherwise the first point is kept, the interior is reduced pairwise,
and the last point is appended. -/
def reduce_segment_haar_wavelet (newpath : List PathPoint)
    (skipOutsideBorders : Bool) (width height : Int) : List PathPoint :=
  if newpath.length ≤ 5 then newpath
  else
    match newpath with
    | [] => []
    | p0 :: rest =>
        (p0 :: haarPairLoop skipOutsideBorders width height rest)
          ++ [(p0 :: rest).getLast (List.cons_ne_nil _ _)]

/-- The exempted-pair test of the reduction loop with
`skip_outside_borders = True`: the pair is kept verbatim exactly when
its first (odd-indexed) member lies on the image frame. -/
def haarKept (width height : Int) (ab : PathPoint × PathPoint) : Bool :=
  is_outside_border_point ab.1 width height

theorem haarPairLoop_length (width height : Int) :
    ∀ l : List PathPoint,
      (haarPairLoop true width height l).length =
        (haarPairList l).length
          + (haarPairList l).countP (haarKept width height)
  | [] => by simp [haarPairLoop, haarPairList]
  | [a] => by simp [haarPairLoop, haarPairList]
  | [a, b] => by simp [haarPairLoop, haarPairList]
  | a :: b :: c :: rest => by
      have ih := haarPairLoop_length width height (c :: rest)
      by_cases hout : is_outside_border_point a width height = true
      · simp [haarPairLoop, haarPairList, haarPairBlock, haarKept, hout, ih]
        omega
      · simp [haarPairLoop, haarPairList, haarPairBlock, haarKept,
          Bool.not_eq_true .. ▸ hout, ih]
        omega

theorem haarPairList_length :
    ∀ l : List PathPoint, (haarPairList l).length = (l.length - 1) / 2
  | [] => by simp [haarPairList]
  | [a] => by simp [haarPairList]
  | [a, b] => by simp [haarPairList]
  | a :: b :: c :: rest => by
      have ih := haarPairList_length (c :: rest)
      simp [haarPairList] at ih ⊢
      omega

theorem haarPairLoop_kept_mem (width height : Int) :
    ∀ l : List PathPoint, ∀ ab ∈ haarPairList l,
      is_outside_border_point ab.1 width height = true →
        ab.1 ∈ haarPairLoop true width height l
          ∧ ab.2 ∈ haarPairLoop true width height l
  | a :: b :: c :: rest => by
      intro ab hmem hout
      simp only [haarPairList, List.mem_cons] at hmem
      rcases hmem with h | h
      · subst h
        simp only [haarPairLoop, haarPairBlock, hout]
        simp
      · have ih := haarPairLoop_kept_mem width height (c :: rest) ab h hout
        simp only [haarPairLoop, List.mem_append]
        exact ⟨Or.inr ih.1, Or.inr ih.2⟩
  | [] => by intro ab h; simp [haarPairList] at h
  | [a] => by intro ab h; simp [haarPairList] at h
  | [a, b] => by intro ab h; simp [haarPairList] at h

/-- C5 (amended): for a segment of more than 5 points, one reduction
pass keeps the original first and last points; each visited pair
contributes one midpoint, so the output has at most
`ceil((n-1)/2) + 1 = n/2 + 1` points plus one extra point for every
exempted pair; a pair is exempted — both members kept verbatim —
exactly when its first (odd-indexed) member lies on the image frame;
segments of at most 5 points are returned unchanged. -/
theorem C5_amended (p : List PathPoint) (width height : Int) :
    (p.length ≤ 5 → reduce_segment_haar_wavelet p true width height = p) ∧
    (6 ≤ p.length →
      (reduce_segment_haar_wavelet p true width height).head? = p.head? ∧
      (reduce_segment_haar_wavelet p true width height).getLast? = p.getLast? ∧
      (reduce_segment_haar_wavelet p true width height).length ≤
        p.length / 2 + 1
          + (haarPairList p.tail).countP (haarKept width height) ∧
      (∀ ab ∈ haarPairList p.tail,
        is_outside_border_point ab.1 width height = true →
          ab.1 ∈ reduce_segment_haar_wavelet p true width height ∧
          ab.2 ∈ reduce_segment_haar_wavelet p true width height)) := by
  constructor
  · intro hle
    simp [reduce_segment_haar_wavelet, hle]
  · intro hge
    have hnotle : ¬ p.length ≤ 5 := by omega
    match p, hge with
    | p0 :: rest, hge =>
      simp only [reduce_segment_haar_wavelet, if_neg hnotle]
      refine ⟨by simp, ?_, ?_, ?_⟩
      · rw [List.getLast?_concat]
        rw [List.getLast?_eq_getLast _ (List.cons_ne_nil _ _)]
      · have h1 := haarPairLoop_length width height rest
        have h2 := haarPairList_length rest
        have hlen : ((p0 :: haarPairLoop true width height rest)
            ++ [(p0 :: rest).getLast (List.cons_ne_nil _ _)]).length =
              (haarPairLoop true width height rest).length + 2 := by
          simp
        simp only [List.tail_cons]
        rw [hlen]
        simp only [List.length_cons] at hge ⊢
        omega
      · intro ab hmem hout
        have := haarPairLoop_kept_mem width height rest ab
          (by simpa using hmem) hout
        simp only [List.mem_append, List.mem_cons]
        exact ⟨Or.inl (Or.inr this.1), Or.inl (Or.inr this.2)⟩

/-- A concrete 6-point segment whose second point lies on the image
frame, used to instantiate the amended C5 theorem. -/
def haarWitnessPath : List PathPoint :=
  [⟨5, 5, Orientation.Top⟩, ⟨0, 4, Orientation.Top⟩, ⟨3, 4, Orientation.Top⟩,
   ⟨8, 5, Orientation.Top⟩, ⟨9, 5, Orientation.Top⟩, ⟨9, 6, Orientation.Top⟩]

/-- Witness for the amended C5 theorem at a concrete 6-point segment in
a 100x100 image: the exempted first pair is kept verbatim, the
endpoints survive, and the length bound holds. -/
theorem C5_amended_witness :
    (haarWitnessPath.length ≤ 5 →
        reduce_segment_haar_wavelet haarWitnessPath true 100 100 =
          haarWitnessPath) ∧
    (6 ≤ haarWitnessPath.length →
      (reduce_segment_haar_wavelet haarWitnessPath true 100 100).head? =
          haarWitnessPath.head? ∧
      (reduce_segment_haar_wavelet haarWitnessPath true 100 100).getLast? =
          haarWitnessPath.getLast? ∧
      (reduce_segment_haar_wavelet haarWitnessPath true 100 100).length ≤
        haarWitnessPath.length / 2 + 1
          + (haarPairList haarWitnessPath.tail).countP (haarKept 100 100) ∧
      (∀ ab ∈ haarPairList haarWitnessPath.tail,
        is_outside_border_point ab.1 100 100 = true →
          ab.1 ∈ reduce_segment_haar_wavelet haarWitnessPath true 100 100 ∧
          ab.2 ∈ reduce_segment_haar_wavelet haarWitnessPath true 100 100)) :=
  C5_amended haarWitnessPath 100 100

/-- A 3-point segment: below the reduction guard of 5 points. -/
def haarShortPath : List PathPoint :=
  [⟨5, 5, Orientation.Top⟩, ⟨6, 5, Orientation.Top⟩, ⟨7, 5, Orientation.Top⟩]

/-- C5 counterexample: the claim bounds every pass output by
`ceil((n-1)/2) + 1` points (in `Nat` arithmetic, `n / 2 + 1`), but a
3-point off-frame segment is returned unchanged with 3 points, while
the claimed bound is `3 / 2 + 1 = 2`. -/
theorem C5_counterexample :
    reduce_segment_haar_wavelet haarShortPath true 100 100 = haarShortPath ∧
    (reduce_segment_haar_wavelet haarShortPath true 100 100).length = 3 ∧
    ¬ ((reduce_segment_haar_wavelet haarShortPath true 100 100).length ≤
        haarShortPath.length / 2 + 1) := by
  refine ⟨by decide, by decide, by decide⟩

/-- An RGB triple, from `core/types.py` / `utils/color.py`. -/
def RGBc := Nat × Nat × Nat

instance : DecidableEq RGBc := by unfold RGBc; infer_instance

/-- Squared Euclidean RGB distance.  `build_color_distance_matrix`
(`colorreduction.py` lines 253-284) stores
`sqrt((r1-r2)^2 + (g1-g2)^2 + (b1-b2)^2)` as a float; the pipeline only
ever compares these entries with `<`, and `sqrt` is strictly monotone
with the squared distances being integers at most `3 * 255^2`, whose
square roots differ by far more than a double ulp, so comparing the
exact squared distances is equivalent. -/
def color_distance_sq (c1 c2 : RGBc) : Nat :=
  ((c1.1 : Int) - c2.1).natAbs ^ 2 + ((c1.2.1 : Int) - c2.2.1).natAbs ^ 2
    + ((c1.2.2 : Int) - c2.2.2).natAbs ^ 2

/-- The colour-distance matrix of `build_color_distance_matrix` as a
function of the two palette indices (the Python code fills a symmetric
`n x n` matrix with exactly these values). -/
def color_distance_matrix_sq (colors : List RGBc) (i j : Nat) : Nat :=
  color_distance_sq (colors.getD i (0, 0, 0)) (colors.getD j (0, 0, 0))

/-- `structs/typed_arrays.py` (`Uint8Array2D`): a row-major W x H grid
of 8-bit unsigned integers.  `set` stores modulo 256 (the TypeScript
`Uint8Array` semantics this class documents itself as providing). -/
structure Uint8Array2D where
  width : Nat
  height : Nat
  data : List Nat
deriving DecidableEq, Repr

/-- `Uint8Array2D.get`: read at `y * width + x`. -/
def Uint8Array2D.get (g : Uint8Array2D) (x y : Nat) : Nat :=
  g.data.getD (y * g.width + x) 0

/-- `Uint8Array2D.set`: write at `y * width + x`, modulo 256. -/
def Uint8Array2D.set (g : Uint8Array2D) (x y v : Nat) : Uint8Array2D :=
  { g with data := g.data.set (y * g.width + x) (v % 256) }

/-- `Uint8Array2D.match_all_around`: all four orthogonal neighbours
exist and hold `value`. -/
def Uint8Array2D.match_all_around (g : Uint8Array2D) (x y value : Nat) :
    Bool :=
  !(x == 0) && (g.get (x - 1) y == value) &&
  (!(y == 0) && (g.get x (y - 1) == value)) &&
  (x + 1 < g.width && (g.get (x + 1) y == value)) &&
  (y + 1 < g.height && (g.get x (y + 1) == value))

/-- The interior coordinates visited by
`process_narrow_pixel_strip_cleanup` (`colorreduction.py` lines
310-311): `for j in range(1, height - 1): for i in range(1, width - 1)`,
row-major. -/
def stripCoords (w h : Nat) : List (Nat × Nat) :=
  (List.range (h - 2)).flatMap
    (fun j => (List.range (w - 2)).map (fun i => (i + 1, j + 1)))

/-- The isolation test at the head of the loop body (line 318): the
current pixel differs from all four orthogonal neighbours of the
current grid state. -/
def stripIsolatedAt (g : Uint8Array2D) (i j : Nat) : Bool :=
  let top := g.get i (j - 1)
  let bottom := g.get i (j + 1)
  let left := g.get (i - 1) j
  let right := g.get (i + 1) j
  let cur := g.get i j
  cur ≠ top && cur ≠ bottom && cur ≠ left && cur ≠ right

/-- One iteration of the loop body of
`process_narrow_pixel_strip_cleanup` (lines 312-334): single isolated
pixels are skipped; horizontally isolated pixels are replaced by the
colour-closer of top/bottom; vertically isolated pixels by the
colour-closer of left/right.  The state is the grid plus the
replacement count. -/
def stripStep (colors : List RGBc) (st : Uint8Array2D × Nat)
    (c : Nat × Nat) : Uint8Array2D × Nat :=
  let g := st.1
  let i := c.1
  let j := c.2
  let top := g.get i (j - 1)
  let bottom := g.get i (j + 1)
  let left := g.get (i - 1) j
  let right := g.get (i + 1) j
  let cur := g.get i j
  if cur ≠ top ∧ cur ≠ bottom ∧ cur ≠ left ∧ cur ≠ right then
    st
  else if cur ≠ top ∧ cur ≠ bottom then
    let topColorDistance := color_distance_matrix_sq colors cur top
    let bottomColorDistance := color_distance_matrix_sq colors cur bottom
    let newColor := if topColorDistance < bottomColorDistance then top
      else bottom
    (g.set i j newColor, st.2 + 1)
  else if cur ≠ left ∧ cur ≠ right then
    let leftColorDistance := color_distance_matrix_sq colors cur left
    let rightColorDistance := color_distance_matrix_sq colors cur right
    let newColor := if leftColorDistance < rightColorDistance then left
      else right
    (g.set i j newColor, st.2 + 1)
  else
    st

/-- `ColorReducer.process_narrow_pixel_strip_cleanup`
(`colorreduction.py` lines 286-336): one in-place pass over the
interior pixels, returning the updated grid and replacement count. -/
def process_narrow_pixel_strip_cleanup (colors : List RGBc)
    (g : Uint8Array2D) : Uint8Array2D × Nat :=
  (stripCoords g.width g.height).foldl (stripStep colors) (g, 0)

/-- The grid state at the moment the pass examines coordinate
`(i, j)`: the fold over the coordinates strictly before `(i, j)` in
scan order. -/
def stripExamGrid (colors : List RGBc) (g : Uint8Array2D) (i j : Nat) :
    Uint8Array2D :=
  (((stripCoords g.width g.height).takeWhile (fun c => c ≠ (i, j))).foldl
    (stripStep colors) (g, 0)).1

theorem flatIdx_inj {w x y u v : Nat} (hx : x < w) (hu : u < w)
    (h : y * w + x = v * w + u) : x = u ∧ y = v := by
  have h' : x + y * w = u + v * w := by
    calc x + y * w = y * w + x := Nat.add_comm _ _
    _ = v * w + u := h
    _ = u + v * w := Nat.add_comm _ _
  have hxu : x = u := by
    have h1 : (x + y * w) % w = (u + v * w) % w := by rw [h']
    rwa [Nat.add_mul_mod_self_right, Nat.add_mul_mod_self_right,
      Nat.mod_eq_of_lt hx, Nat.mod_eq_of_lt hu] at h1
  subst hxu
  refine ⟨rfl, ?_⟩
  have hw : 0 < w := Nat.lt_of_le_of_lt (Nat.zero_le _) hx
  have h2 : y * w = v * w := by omega
  exact Nat.eq_of_mul_eq_mul_right hw h2

theorem Uint8Array2D.get_set_ne (g : Uint8Array2D) {x y u v : Nat}
    (hx : x < g.width) (hu : u < g.width) (hne : (u, v) ≠ (x, y))
    (val : Nat) : (g.set x y val).get u v = g.get u v := by
  unfold Uint8Array2D.set Uint8Array2D.get
  have hidx : v * g.width + u ≠ y * g.width + x := by
    intro hcontra
    exact hne (by
      obtain ⟨h1, h2⟩ := flatIdx_inj hu hx hcontra
      simp [h1, h2])
  simp [List.getD, List.getElem?_set_ne (Ne.symm hidx)]

theorem stripStep_width (colors : List RGBc) (st : Uint8Array2D × Nat)
    (c : Nat × Nat) : (stripStep colors st c).1.width = st.1.width := by
  unfold stripStep Uint8Array2D.set
  dsimp only
  repeat' split
  all_goals rfl

theorem stripStep_get_other (colors : List RGBc) (st : Uint8Array2D × Nat)
    (c : Nat × Nat) {u v : Nat} (hc : c.1 < st.1.width)
    (hu : u < st.1.width) (hne : (u, v) ≠ c) :
    (stripStep colors st c).1.get u v = st.1.get u v := by
  have hne' : (u, v) ≠ (c.1, c.2) := by simpa using hne
  unfold stripStep
  dsimp only
  repeat' split
  all_goals first
    | rfl
    | exact st.1.get_set_ne hc hu hne' _

theorem stripStep_skip (colors : List RGBc) (st : Uint8Array2D × Nat)
    (c : Nat × Nat) (hiso : stripIsolatedAt st.1 c.1 c.2 = true) :
    stripStep colors st c = st := by
  unfold stripIsolatedAt at hiso
  simp only [Bool.and_eq_true, decide_eq_true_eq, ne_eq,
    Bool.not_eq_true', decide_eq_false_iff_not] at hiso
  unfold stripStep
  rw [if_pos]
  exact ⟨hiso.1.1.1, hiso.1.1.2, hiso.1.2, hiso.2⟩

theorem stripFold_width (colors : List RGBc) :
    ∀ (L : List (Nat × Nat)) (st : Uint8Array2D × Nat),
      (L.foldl (stripStep colors) st).1.width = st.1.width
  | [], _ => rfl
  | c :: rest, st => by
      rw [List.foldl_cons, stripFold_width colors rest]
      exact stripStep_width colors st c

theorem stripFold_get_other (colors : List RGBc) :
    ∀ (L : List (Nat × Nat)) (st : Uint8Array2D × Nat) {u v : Nat},
      (∀ c ∈ L, c.1 < st.1.width) → u < st.1.width → (u, v) ∉ L →
      (L.foldl (stripStep colors) st).1.get u v = st.1.get u v
  | [], _, _, _, _, _, _ => rfl
  | c :: rest, st, u, v, hin, hu, hnot => by
      rw [List.foldl_cons]
      have hw := stripStep_width colors st c
      have hne : (u, v) ≠ c := fun h => hnot (h ▸ List.mem_cons_self c rest)
      rw [stripFold_get_other colors rest (stripStep colors st c)
        (by intro d hd; rw [hw]; exact hin d (List.mem_cons_of_mem c hd))
        (hw ▸ hu)
        (fun h => hnot (List.mem_cons_of_mem c h))]
      exact stripStep_get_other colors st c (hin c (List.mem_cons_self c rest))
        hu hne

theorem stripCoords_mem {w h : Nat} {c : Nat × Nat}
    (hc : c ∈ stripCoords w h) :
    1 ≤ c.1 ∧ c.1 < w - 1 ∧ 1 ≤ c.2 ∧ c.2 < h - 1 := by
  simp only [stripCoords, List.mem_flatMap, List.mem_map,
    List.mem_range] at hc
  obtain ⟨j, hj, i, hi, rfl⟩ := hc
  omega

theorem stripCoords_nodup (w h : Nat) : (stripCoords w h).Nodup := by
  unfold stripCoords
  rw [List.nodup_flatMap]
  constructor
  · intro j _
    exact (List.nodup_range _).map (fun a b hab => by
      simpa using congrArg Prod.fst hab)
  · rw [List.pairwise_iff_forall_sublist]
    intro j1 j2 hsub
    have hne : j1 ≠ j2 := by
      intro h
      subst h
      have := List.Sublist.nodup hsub (List.nodup_range _)
      simp at this
    intro p hp1 hp2
    simp only [List.mem_map, List.mem_range] at hp1 hp2
    obtain ⟨i1, _, rfl⟩ := hp1
    obtain ⟨i2, _, heq⟩ := hp2
    exact hne (by simpa using (congrArg Prod.snd heq).symm)

/-- C9 (amended): the pass leaves a pixel unchanged when it is isolated
from all four of its neighbours *at the moment the scan examines it*
(the scan mutates the grid in place, so earlier replacements feed into
later isolation tests); such a pixel's final value equals its value
before the pass. -/
theorem C9_amended (colors : List RGBc) (g : Uint8Array2D) (i j : Nat)
    (hmem : (i, j) ∈ stripCoords g.width g.height)
    (hiso : stripIsolatedAt (stripExamGrid colors g i j) i j = true) :
    (process_narrow_pixel_strip_cleanup colors g).1.get i j = g.get i j := by
  set L := stripCoords g.width g.height with hL
  set p : Nat × Nat → Bool := fun c => c ≠ (i, j) with hp
  have hsplit : L.takeWhile p ++ L.dropWhile p = L :=
    List.takeWhile_append_dropWhile p L
  have hdropne : L.dropWhile p ≠ [] := by
    intro hnil
    have : (i, j) ∈ L.takeWhile p := by
      rw [← hsplit, List.mem_append] at hmem
      rcases hmem with hmem | hmem
      · exact hmem
      · rw [hnil] at hmem; simp at hmem
    have := List.mem_takeWhile_imp this
    simp [hp] at this
  have hpfalse : ∀ y, p y = false → y = (i, j) := by
    intro y hy
    rw [hp] at hy
    simpa using hy
  have hhead : (L.dropWhile p).head hdropne = (i, j) :=
    hpfalse _ (List.head_dropWhile_not p L hdropne)
  have hdrop : L.dropWhile p = (i, j) :: (L.dropWhile p).tail := by
    conv_lhs => rw [← List.head_cons_tail _ hdropne, hhead]
  have hnodup : L.Nodup := stripCoords_nodup _ _
  have hnodup2 : (L.takeWhile p ++ (i, j) :: (L.dropWhile p).tail).Nodup := by
    rw [← hdrop, hsplit]; exact hnodup
  have hnot_take : (i, j) ∉ L.takeWhile p := by
    intro hmem'
    have := List.mem_takeWhile_imp hmem'
    simp [hp] at this
  have hnot_tail : (i, j) ∉ (L.dropWhile p).tail := by
    have := (List.nodup_append.mp hnodup2).2.1
    exact (List.nodup_cons.mp this).1
  have hbounds := stripCoords_mem hmem
  have hi : i < g.width := by omega
  -- run the fold over the decomposition
  unfold process_narrow_pixel_strip_cleanup
  rw [← hL, ← hsplit, List.foldl_append, hdrop, List.foldl_cons]
  have hexam : (L.takeWhile p).foldl (stripStep colors) (g, 0) =
      ((stripExamGrid colors g i j),
        ((L.takeWhile p).foldl (stripStep colors) (g, 0)).2) := by
    unfold stripExamGrid
    rw [← hL, ← hp]
  have hwidth_exam : (stripExamGrid colors g i j).width = g.width := by
    unfold stripExamGrid
    rw [← hL, ← hp]
    exact stripFold_width colors _ _
  rw [hexam, stripStep_skip colors _ _ (by simpa using hiso)]
  have hget_exam : (stripExamGrid colors g i j).get i j = g.get i j := by
    unfold stripExamGrid
    rw [← hL, ← hp]
    have := stripFold_get_other colors (L.takeWhile p) (g, 0)
      (u := i) (v := j)
      (by
        intro c hc
        have hcL : c ∈ L := (List.takeWhile_sublist _).subset hc
        have := stripCoords_mem hcL
        show c.1 < g.width
        omega)
      hi hnot_take
    rw [this]
  rw [stripFold_get_other colors _ _
    (by
      intro c hc
      have hcL : c ∈ L := by
        rw [← hsplit, List.mem_append, hdrop]
        exact Or.inr (List.mem_cons_of_mem _ hc)
      have := stripCoords_mem hcL
      show c.1 < (stripExamGrid colors g i j).width
      rw [hwidth_exam]
      omega)
    (by
      show i < (stripExamGrid colors g i j).width
      rw [hwidth_exam]; exact hi) hnot_tail]
  exact hget_exam

/-- Palette for the C9 counterexample. -/
def stripCounterPalette : List RGBc :=
  [(0, 0, 0), (10, 0, 0), (200, 0, 0), (255, 0, 0)]

/-- 3x4 grid for the C9 counterexample: the interior pixel (1,2)
holds colour 0 and differs from all four of its neighbours before the
pass. -/
def stripCounterGrid : Uint8Array2D :=
  ⟨3, 4, [3, 2, 3, 3, 1, 1, 2, 0, 3, 3, 3, 3]⟩

/-- C9 counterexample: pixel (1,2) differs from all four of its
neighbours *before* the pass, yet the pass changes it from colour 0 to
colour 2 — the scan first rewrites its top neighbour (1,1) to colour 0,
so when (1,2) is examined it is no longer isolated and the
vertical-isolation branch fires. -/
theorem C9_counterexample :
    stripIsolatedAt stripCounterGrid 1 2 = true ∧
    stripCounterGrid.get 1 2 = 0 ∧
    (process_narrow_pixel_strip_cleanup stripCounterPalette
        stripCounterGrid).1.get 1 2 = 2 := by
  refine ⟨by decide, by decide, by decide⟩

/-- Palette for the C9 witness. -/
def stripWitnessPalette : List RGBc :=
  [(0, 0, 0), (1, 0, 0), (2, 0, 0), (3, 0, 0), (4, 0, 0), (5, 0, 0)]

/-- 3x3 grid whose single interior pixel is isolated when examined. -/
def stripWitnessGrid : Uint8Array2D :=
  ⟨3, 3, [1, 2, 1, 3, 0, 4, 1, 5, 1]⟩

/-- Witness for the amended C9 theorem: in a 3x3 grid whose single
interior pixel is isolated when the scan reaches it, the pass leaves
that pixel unchanged. -/
theorem C9_amended_witness :
    (process_narrow_pixel_strip_cleanup stripWitnessPalette
        stripWitnessGrid).1.get 1 1 = stripWitnessGrid.get 1 1 :=
  C9_amended stripWitnessPalette stripWitnessGrid 1 1 (by decide) (by decide)

theorem Uint8Array2D.get_set_eq (g : Uint8Array2D) {x y : Nat} (v : Nat)
    (hidx : y * g.width + x < g.data.length) :
    (g.set x y v).get x y = v % 256 := by
  unfold Uint8Array2D.set Uint8Array2D.get
  simp [List.getD, List.getElem?_set_self, hidx]

/-- Result of `ColorReducer.create_color_map` (`colorreduction.py`
lines 21-43): the per-pixel colour-index grid and the palette in
first-appearance order. -/
structure ColorMapResult where
  imgColorIndices : Uint8Array2D
  colorsByIndex : List RGBc
deriving DecidableEq

/-- First-match association lookup, modelling the Python dict
`colors` of `create_color_map` (keys are the formatted "r,g,b"
strings, which identify colour triples injectively). -/
def assocFind : List (RGBc × Nat) → RGBc → Option Nat
  | [], _ => none
  | (k, v) :: rest, c => if k = c then some v else assocFind rest c

/-- First index of a colour in a palette (`none` when absent). -/
def paletteIdx : List RGBc → RGBc → Option Nat
  | [], _ => none
  | c :: rest, d => if c = d then some 0 else (paletteIdx rest d).map (· + 1)

/-- The row-major pixel coordinates `for j in range(height): for i in
range(width)` of `create_color_map`. -/
def pixCoords (w h : Nat) : List (Nat × Nat) :=
  (List.range h).flatMap (fun j => (List.range w).map (fun i => (i, j)))

/-- One pixel of the `create_color_map` loop (`colorreduction.py`
lines 75-90): look the pixel's colour up in the dict; on a miss assign
the next index and append to the palette; store the index in the
`Uint8Array2D` (which truncates to 8 bits). -/
def cmapStep (img : Nat × Nat → RGBc)
    (st : Uint8Array2D × List (RGBc × Nat) × List RGBc × Nat)
    (c : Nat × Nat) : Uint8Array2D × List (RGBc × Nat) × List RGBc × Nat :=
  let col := img c
  match assocFind st.2.1 col with
  | some k => (st.1.set c.1 c.2 k, st.2.1, st.2.2.1, st.2.2.2)
  | none =>
      (st.1.set c.1 c.2 st.2.2.2, st.2.1 ++ [(col, st.2.2.2)],
        st.2.2.1 ++ [col], st.2.2.2 + 1)

/-- `ColorReducer.create_color_map` (`colorreduction.py` lines 53-98). -/
def create_color_map (img : Nat × Nat → RGBc) (width height : Nat) :
    ColorMapResult :=
  let fin := (pixCoords width height).foldl (cmapStep img)
    (⟨width, height, List.replicate (width * height) 0⟩, [], [], 0)
  ⟨fin.1, fin.2.2.1⟩

theorem paletteIdx_append_left (l1 l2 : List RGBc) (c : RGBc) (k : Nat)
    (h : paletteIdx l1 c = some k) : paletteIdx (l1 ++ l2) c = some k := by
  induction l1 generalizing k with
  | nil => simp [paletteIdx] at h
  | cons d rest ih =>
      by_cases hdc : d = c
      · simp only [paletteIdx, if_pos hdc] at h
        simp [paletteIdx, hdc, ← h]
      · simp only [paletteIdx, if_neg hdc, Option.map_eq_some'] at h
        obtain ⟨k', hk', rfl⟩ := h
        simp [paletteIdx, hdc, ih _ hk']

theorem paletteIdx_append_right (l1 l2 : List RGBc) (c : RGBc)
    (h : paletteIdx l1 c = none) :
    paletteIdx (l1 ++ l2) c = (paletteIdx l2 c).map (· + l1.length) := by
  induction l1 with
  | nil => simp [paletteIdx]
  | cons d rest ih =>
      by_cases hdc : d = c
      · simp [paletteIdx, hdc] at h
      · simp only [paletteIdx, if_neg hdc, Option.map_eq_none'] at h
        have hih := ih h
        simp only [List.cons_append, paletteIdx, if_neg hdc,
          List.length_cons, List.append_eq]
        rw [hih, Option.map_map]
        cases paletteIdx l2 c with
        | none => rfl
        | some k =>
            refine congrArg some ?_
            show k + rest.length + 1 = k + (rest.length + 1)
            omega

theorem paletteIdx_none_iff (l : List RGBc) (c : RGBc) :
    paletteIdx l c = none ↔ c ∉ l := by
  induction l with
  | nil => simp [paletteIdx]
  | cons d rest ih =>
      by_cases hdc : d = c
      · simp [paletteIdx, hdc]
      · simp [paletteIdx, hdc, ih, Ne.symm hdc]

theorem paletteIdx_getD_of_nodup (l : List RGBc) (hnd : l.Nodup) (k : Nat)
    (hk : k < l.length) :
    paletteIdx l (l.getD k (0, 0, 0)) = some k := by
  induction l generalizing k with
  | nil => simp at hk
  | cons d rest ih =>
      rcases List.nodup_cons.mp hnd with ⟨hd, hrest⟩
      cases k with
      | zero => simp [paletteIdx, List.getD]
      | succ k =>
          have hk' : k < rest.length := by
            simpa [Nat.succ_lt_succ_iff] using hk
          have hmem : rest.getD k (0, 0, 0) ∈ rest := by
            have : rest.getD k (0, 0, 0) = rest.get ⟨k, hk'⟩ := by
              simp [List.getD_eq_getElem?_getD, List.getElem?_eq_getElem hk']
            rw [this]
            exact List.get_mem rest _ ..
          have hne : d ≠ rest.getD k (0, 0, 0) := fun h => hd (h ▸ hmem)
          simp only [paletteIdx, List.getD_cons_succ, if_neg hne, ih hrest k hk']
          rfl

theorem assocFind_append (a b : List (RGBc × Nat)) (c : RGBc) :
    assocFind (a ++ b) c =
      match assocFind a c with
      | some k => some k
      | none => assocFind b c := by
  induction a with
  | nil => simp [assocFind]
  | cons kv rest ih =>
      by_cases hkc : kv.1 = c
      · simp [assocFind, hkc]
      · simpa [assocFind, hkc] using ih

theorem flatIdx_lt {w h i j : Nat} (hi : i < w) (hj : j < h) :
    j * w + i < w * h := by
  have h1 : j * w + i < (j + 1) * w := by
    rw [Nat.succ_mul]
    omega
  have h2 : (j + 1) * w ≤ h * w := Nat.mul_le_mul_right w hj
  rw [Nat.mul_comm w h]
  omega

theorem Uint8Array2D.set_width (g : Uint8Array2D) (x y v : Nat) :
    (g.set x y v).width = g.width := rfl

theorem Uint8Array2D.set_height (g : Uint8Array2D) (x y v : Nat) :
    (g.set x y v).height = g.height := rfl

theorem Uint8Array2D.set_data_length (g : Uint8Array2D) (x y v : Nat) :
    (g.set x y v).data.length = g.data.length := by
  unfold Uint8Array2D.set
  simp

/-- Invariant carried through the pixel fold of `create_color_map`:
grid dimensions are fixed, the counter equals the palette size, the
dict agrees with first-index palette lookup, the palette has no
duplicates, every processed pixel stores its colour's palette index
modulo 256, and every palette entry was contributed by some processed
pixel. -/
def CmapInv (img : Nat × Nat → RGBc) (w h : Nat)
    (processed : List (Nat × Nat))
    (st : Uint8Array2D × List (RGBc × Nat) × List RGBc × Nat) : Prop :=
  st.1.width = w ∧ st.1.height = h ∧ st.1.data.length = w * h ∧
  st.2.2.2 = st.2.2.1.length ∧
  (∀ c, assocFind st.2.1 c = paletteIdx st.2.2.1 c) ∧
  st.2.2.1.Nodup ∧
  (∀ p ∈ processed, p.1 < w ∧ p.2 < h ∧
    st.1.get p.1 p.2 = (paletteIdx st.2.2.1 (img p)).getD 0 % 256 ∧
    img p ∈ st.2.2.1) ∧
  (∀ k, k < st.2.2.1.length →
    ∃ p ∈ processed, img p = st.2.2.1.getD k (0, 0, 0))

theorem cmapStep_inv (img : Nat × Nat → RGBc) (w h : Nat)
    (processed : List (Nat × Nat))
    (st : Uint8Array2D × List (RGBc × Nat) × List RGBc × Nat)
    (c : Nat × Nat) (hinv : CmapInv img w h processed st)
    (hc1 : c.1 < w) (hc2 : c.2 < h) (hcp : c ∉ processed) :
    CmapInv img w h (processed ++ [c]) (cmapStep img st c) := by
  obtain ⟨hW, hH, hL, hB, hA, hND, hE, hF⟩ := hinv
  have hidx : c.2 * st.1.width + c.1 < st.1.data.length := by
    rw [hW, hL]
    exact flatIdx_lt hc1 hc2
  have hget_other : ∀ (v : Nat) (p : Nat × Nat), p ∈ processed →
      (st.1.set c.1 c.2 v).get p.1 p.2 = st.1.get p.1 p.2 := by
    intro v p hp
    have hpw := (hE p hp).1
    exact st.1.get_set_ne (hW ▸ hc1) (hW ▸ hpw)
      (fun hcon => hcp (by
        have : p = c := by
          have h1 := congrArg Prod.fst hcon
          have h2 := congrArg Prod.snd hcon
          simp at h1 h2
          exact Prod.ext h1 h2
        exact this ▸ hp)) v
  unfold cmapStep
  dsimp only
  cases hfind : assocFind st.2.1 (img c) with
  | some k =>
      have hpi : paletteIdx st.2.2.1 (img c) = some k := by
        rw [← hA]; exact hfind
      refine ⟨hW, hH, by rw [Uint8Array2D.set_data_length]; exact hL, hB, hA,
        hND, ?_, ?_⟩
      · intro p hp
        rcases List.mem_append.mp hp with hp | hp
        · obtain ⟨h1, h2, h3, h4⟩ := hE p hp
          exact ⟨h1, h2, by rw [hget_other k p hp]; exact h3, h4⟩
        · have hpc : p = c := by simpa using hp
          subst hpc
          refine ⟨hc1, hc2, ?_, ?_⟩
          · show (st.1.set p.1 p.2 k).get p.1 p.2 =
              (paletteIdx st.2.2.1 (img p)).getD 0 % 256
            rw [st.1.get_set_eq k hidx, hpi]
            rfl
          · show img p ∈ st.2.2.1
            by_contra hcon
            rw [← paletteIdx_none_iff] at hcon
            rw [hpi] at hcon
            simp at hcon
      · intro k' hk'
        obtain ⟨p, hp, hip⟩ := hF k' hk'
        exact ⟨p, List.mem_append.mpr (Or.inl hp), hip⟩
  | none =>
      have hpi : paletteIdx st.2.2.1 (img c) = none := by
        rw [← hA]; exact hfind
      have hnotmem : img c ∉ st.2.2.1 := (paletteIdx_none_iff _ _).mp hpi
      have hnew : paletteIdx (st.2.2.1 ++ [img c]) (img c) =
          some st.2.2.1.length := by
        rw [paletteIdx_append_right _ _ _ hpi]
        simp [paletteIdx]
      refine ⟨hW, hH, by rw [Uint8Array2D.set_data_length]; exact hL, ?_, ?_,
        ?_, ?_, ?_⟩
      · simp [hB]
      · intro c'
        rw [assocFind_append]
        cases hfind' : assocFind st.2.1 c' with
        | some k' =>
            have := hA c'
            rw [hfind'] at this
            rw [paletteIdx_append_left _ _ _ _ this.symm]
        | none =>
            have hpi' : paletteIdx st.2.2.1 c' = none := by
              rw [← hA]; exact hfind'
            rw [paletteIdx_append_right _ _ _ hpi']
            by_cases hcc : img c = c'
            · simp [assocFind, hcc, paletteIdx, hB]
            · simp [assocFind, hcc, paletteIdx]
      · simp [List.nodup_append, hND, hnotmem]
      · intro p hp
        rcases List.mem_append.mp hp with hp | hp
        · obtain ⟨h1, h2, h3, h4⟩ := hE p hp
          refine ⟨h1, h2, ?_, List.mem_append.mpr (Or.inl h4)⟩
          rw [hget_other _ p hp, h3]
          obtain ⟨k0, hk0⟩ := Option.isSome_iff_exists.mp
            (by rw [← Option.ne_none_iff_isSome, Ne,
              paletteIdx_none_iff]; simpa using h4)
          rw [paletteIdx_append_left _ _ _ _ hk0, hk0]
        · have hpc : p = c := by simpa using hp
          subst hpc
          refine ⟨hc1, hc2, ?_, by simp⟩
          rw [st.1.get_set_eq _ hidx, hnew, hB]
          rfl
      · intro k' hk'
        simp only [List.length_append, List.length_singleton] at hk'
        by_cases hlt : k' < st.2.2.1.length
        · obtain ⟨p, hp, hip⟩ := hF k' hlt
          refine ⟨p, List.mem_append.mpr (Or.inl hp), ?_⟩
          rwa [List.getD_append _ _ _ _ hlt]
        · have hk'eq : k' = st.2.2.1.length := by omega
          refine ⟨c, List.mem_append.mpr (Or.inr (by simp)), ?_⟩
          subst hk'eq
          simp [List.getD_eq_getElem?_getD, List.getElem?_append_right]

theorem cmapFold_inv (img : Nat × Nat → RGBc) (w h : Nat) :
    ∀ (L : List (Nat × Nat)) (processed : List (Nat × Nat))
      (st : Uint8Array2D × List (RGBc × Nat) × List RGBc × Nat),
      CmapInv img w h processed st →
      (∀ p ∈ L, p.1 < w ∧ p.2 < h) →
      (∀ p ∈ L, p ∉ processed) → L.Nodup →
      CmapInv img w h (processed ++ L) (L.foldl (cmapStep img) st)
  | [], processed, st, hinv, _, _, _ => by simpa using hinv
  | c :: rest, processed, st, hinv, hrange, hdisj, hnd => by
      have hstep := cmapStep_inv img w h processed st c hinv
        (hrange c (List.mem_cons_self c rest)).1
        (hrange c (List.mem_cons_self c rest)).2
        (hdisj c (List.mem_cons_self c rest))
      have hrest := cmapFold_inv img w h rest (processed ++ [c])
        (cmapStep img st c) hstep
        (fun p hp => hrange p (List.mem_cons_of_mem c hp))
        (fun p hp => by
          intro hcon
          rcases List.mem_append.mp hcon with hcon | hcon
          · exact hdisj p (List.mem_cons_of_mem c hp) hcon
          · have : p = c := by simpa using hcon
            exact (List.nodup_cons.mp hnd).1 (this ▸ hp))
        (List.nodup_cons.mp hnd).2
      rw [List.foldl_cons]
      have : processed ++ c :: rest = (processed ++ [c]) ++ rest := by simp
      rw [this]
      exact hrest

theorem pixCoords_mem_iff {w h : Nat} {p : Nat × Nat} :
    p ∈ pixCoords w h ↔ p.1 < w ∧ p.2 < h := by
  cases p with
  | mk i j =>
      simp only [pixCoords, List.mem_flatMap, List.mem_map, List.mem_range,
        Prod.mk.injEq]
      constructor
      · rintro ⟨j', hj', i', hi', rfl, rfl⟩
        exact ⟨hi', hj'⟩
      · rintro ⟨hi, hj⟩
        exact ⟨j, hj, i, hi, rfl, rfl⟩

theorem pixCoords_nodup (w h : Nat) : (pixCoords w h).Nodup := by
  unfold pixCoords
  rw [List.nodup_flatMap]
  constructor
  · intro j _
    exact (List.nodup_range _).map (fun a b hab => by
      simpa using congrArg Prod.fst hab)
  · rw [List.pairwise_iff_forall_sublist]
    intro j1 j2 hsub
    have hne : j1 ≠ j2 := by
      intro h
      subst h
      have := List.Sublist.nodup hsub (List.nodup_range _)
      simp at this
    intro p hp1 hp2
    simp only [List.mem_map, List.mem_range] at hp1 hp2
    obtain ⟨i1, _, rfl⟩ := hp1
    obtain ⟨i2, _, heq⟩ := hp2
    exact hne (by simpa using (congrArg Prod.snd heq).symm)

theorem create_color_map_inv (img : Nat × Nat → RGBc) (w h : Nat) :
    CmapInv img w h (pixCoords w h)
      ((pixCoords w h).foldl (cmapStep img)
        (⟨w, h, List.replicate (w * h) 0⟩, [], [], 0)) := by
  have hinit : CmapInv img w h []
      ((⟨w, h, List.replicate (w * h) 0⟩ : Uint8Array2D), [], [], 0) := by
    refine ⟨rfl, rfl, by simp, rfl, fun c => rfl, List.nodup_nil,
      by simp, by simp⟩
  have := cmapFold_inv img w h (pixCoords w h) []
    (⟨w, h, List.replicate (w * h) 0⟩, [], [], 0) hinit
    (fun p hp => pixCoords_mem_iff.mp hp)
    (by simp)
    (pixCoords_nodup w h)
  simpa using this

/-- C10: `Uint8Array2D` stores values modulo 256 — a `get` after a
`set` at the same in-range cell returns `v % 256` — and consequently
the colour-index grid of `create_color_map` records each pixel's
palette index modulo 256; as soon as the image holds more than 256
distinct colours, two pixels with distinct palette indices collide to
the same stored value. -/
theorem C10_uint8_mod256 :
    (∀ (g : Uint8Array2D) (x y v : Nat), y * g.width + x < g.data.length →
      (g.set x y v).get x y = v % 256) ∧
    (∀ (img : Nat × Nat → RGBc) (w h : Nat) (p : Nat × Nat),
      p.1 < w → p.2 < h →
      (create_color_map img w h).imgColorIndices.get p.1 p.2 =
        (paletteIdx (create_color_map img w h).colorsByIndex
          (img p)).getD 0 % 256) ∧
    (∀ (img : Nat × Nat → RGBc) (w h : Nat),
      256 < (create_color_map img w h).colorsByIndex.length →
      ∃ p q : Nat × Nat, p.1 < w ∧ p.2 < h ∧ q.1 < w ∧ q.2 < h ∧
        paletteIdx (create_color_map img w h).colorsByIndex (img p) ≠
          paletteIdx (create_color_map img w h).colorsByIndex (img q) ∧
        (create_color_map img w h).imgColorIndices.get p.1 p.2 =
          (create_color_map img w h).imgColorIndices.get q.1 q.2) := by
  refine ⟨fun g x y v hidx => g.get_set_eq v hidx, ?_, ?_⟩
  · intro img w h p hp1 hp2
    have hinv := create_color_map_inv img w h
    obtain ⟨_, _, _, _, _, _, hE, _⟩ := hinv
    have hp : p ∈ pixCoords w h := pixCoords_mem_iff.mpr ⟨hp1, hp2⟩
    exact (hE p hp).2.2.1
  · intro img w h hlen
    have hpal : (create_color_map img w h).colorsByIndex =
        ((pixCoords w h).foldl (cmapStep img)
          (⟨w, h, List.replicate (w * h) 0⟩, [], [], 0)).2.2.1 := rfl
    have hgrid : (create_color_map img w h).imgColorIndices =
        ((pixCoords w h).foldl (cmapStep img)
          (⟨w, h, List.replicate (w * h) 0⟩, [], [], 0)).1 := rfl
    rw [hpal] at hlen
    have hinv := create_color_map_inv img w h
    obtain ⟨_, _, _, _, _, hND, hE, hF⟩ := hinv
    obtain ⟨p, hp, hip⟩ := hF 0 (by omega)
    obtain ⟨q, hq, hiq⟩ := hF 256 (by omega)
    have hpbounds := hE p hp
    have hqbounds := hE q hq
    have hpidx : paletteIdx ((pixCoords w h).foldl (cmapStep img)
        (⟨w, h, List.replicate (w * h) 0⟩, [], [], 0)).2.2.1 (img p) =
          some 0 := by
      rw [hip]
      exact paletteIdx_getD_of_nodup _ hND 0 (by omega)
    have hqidx : paletteIdx ((pixCoords w h).foldl (cmapStep img)
        (⟨w, h, List.replicate (w * h) 0⟩, [], [], 0)).2.2.1 (img q) =
          some 256 := by
      rw [hiq]
      exact paletteIdx_getD_of_nodup _ hND 256 (by omega)
    refine ⟨p, q, hpbounds.1, hpbounds.2.1, hqbounds.1, hqbounds.2.1, ?_, ?_⟩
    · rw [hpal, hpidx, hqidx]
      simp
    · rw [hgrid, hpbounds.2.2.1, hqbounds.2.2.1, hpidx, hqidx]
      decide

/-- A 257x1 image with 257 distinct colours: pixel `i` holds colour
`(i, 0, 0)`. -/
def img257 : Nat × Nat → RGBc := fun p => (p.1, 0, 0)

/-- A 1x1 one-colour image. -/
def img1 : Nat × Nat → RGBc := fun _ => (7, 7, 7)

set_option maxRecDepth 10000 in
/-- Witness for C10 at concrete inputs: a 1x1 grid stores 300 as 44;
a 1x1 image's pixel stores its palette index mod 256; the 257-colour
257x1 image has a palette longer than 256, so two pixels with distinct
palette indices store equal values. -/
theorem C10_uint8_mod256_witness :
    ((⟨1, 1, [5]⟩ : Uint8Array2D).set 0 0 300).get 0 0 = 300 % 256 ∧
    (create_color_map img1 1 1).imgColorIndices.get 0 0 =
      (paletteIdx (create_color_map img1 1 1).colorsByIndex
        (img1 (0, 0))).getD 0 % 256 ∧
    (∃ p q : Nat × Nat, p.1 < 257 ∧ p.2 < 1 ∧ q.1 < 257 ∧ q.2 < 1 ∧
      paletteIdx (create_color_map img257 257 1).colorsByIndex
          (img257 p) ≠
        paletteIdx (create_color_map img257 257 1).colorsByIndex
          (img257 q) ∧
      (create_color_map img257 257 1).imgColorIndices.get p.1 p.2 =
        (create_color_map img257 257 1).imgColorIndices.get q.1 q.2) :=
  ⟨C10_uint8_mod256.1 ⟨1, 1, [5]⟩ 0 0 300 (by decide),
   C10_uint8_mod256.2.1 img1 1 1 (0, 0) (by decide) (by decide),
   C10_uint8_mod256.2.2 img257 257 1 (by decide)⟩

/-- Read-only view of the facet-id map used by the border segmenter:
image dimensions plus the `facetMap.get` lookup (a `Uint32Array2D` in
`facetmanagement.py`).  The lookup is total, as the splitting pass of
the segmenter calls it on diagonal coordinates without bounds checks. -/
structure FacetMapView where
  width : Int
  height : Int
  get : Int → Int → Int

/-- The coordinate displacement of each wall orientation toward the
outside neighbour. -/
def orientation_offset : Orientation → Int × Int
  | Orientation.Left => (-1, 0)
  | Orientation.Right => (1, 0)
  | Orientation.Top => (0, -1)
  | Orientation.Bottom => (0, 1)

/-- Modelled from the spec: `PathPoint.get_neighbour` is called by
`facetbordersegmenter.py` but its defining code is not among the
sources; spec section 4.6 defines it as the facet-map entry at the
position displaced by the wall orientation — `facet_map(x-1,y)` for
`Left`, `(x+1,y)` for `Right`, `(x,y-1)` for `Top`, `(x,y+1)` for
`Bottom` — and `-1` when that position lies outside the image. -/
def PathPoint.get_neighbour (pp : PathPoint) (fr : FacetMapView) : Int :=
  let d := orientation_offset pp.orientation
  let nx := pp.x + d.1
  let ny := pp.y + d.2
  if 0 ≤ nx ∧ nx < fr.width ∧ 0 ≤ ny ∧ ny < fr.height then
    fr.get nx ny
  else
    -1

/-- The diagonal lookup of the rotation-turn case of
`_prepare_segments_per_facet` (`facetbordersegmenter.py` lines
110-131): one of the four diagonals of `cur`, selected by the
unordered pair of orientations; `-1` when the pair matches no case. -/
def diag_neighbour (fr : FacetMapView) (prev cur : PathPoint) : Int :=
  match prev.orientation, cur.orientation with
  | Orientation.Top, Orientation.Left
  | Orientation.Left, Orientation.Top =>
      fr.get (cur.x - 1) (cur.y - 1)
  | Orientation.Top, Orientation.Right
  | Orientation.Right, Orientation.Top =>
      fr.get (cur.x + 1) (cur.y - 1)
  | Orientation.Bottom, Orientation.Left
  | Orientation.Left, Orientation.Bottom =>
      fr.get (cur.x - 1) (cur.y + 1)
  | Orientation.Bottom, Orientation.Right
  | Orientation.Right, Orientation.Bottom =>
      fr.get (cur.x + 1) (cur.y + 1)
  | _, _ => -1

/-- The transition decision of `_prepare_segments_per_facet` (lines
101-134) for one consecutive pair of border-path points: a transition
when the outside neighbours differ, or — for a same-pixel rotation
with a real neighbour — when the diagonal neighbour differs. -/
def is_transition_point (fr : FacetMapView) (prev cur : PathPoint) : Bool :=
  let oldN := prev.get_neighbour fr
  let curN := cur.get_neighbour fr
  if oldN ≠ curN then
    true
  else if oldN ≠ -1 then
    if prev.x = cur.x ∧ prev.y = cur.y then
      decide (diag_neighbour fr prev cur ≠ oldN)
    else
      false
  else
    false

/-- `facetmanagement.py` (`PathSegment`): an ordered run of path
points plus the facet id of the outside neighbour (`-1` for the image
edge). -/
structure PathSegment where
  points : List PathPoint
  neighbour : Int
deriving DecidableEq, Repr

/-- One iteration of the splitting loop of
`_prepare_segments_per_facet` (lines 94-143), carried over the
consecutive pairs of the border path: append `cur` to the running
point list and, at a transition, emit a segment tagged with the
*previous* point's neighbour and restart the run at `cur`. -/
def prepare_step (fr : FacetMapView)
    (st : List PathPoint × List PathSegment)
    (pq : PathPoint × PathPoint) : List PathPoint × List PathSegment :=
  let oldN := pq.1.get_neighbour fr
  let currentPoints := st.1 ++ [pq.2]
  if is_transition_point fr pq.1 pq.2 ∧ 1 < currentPoints.length then
    ([pq.2], st.2 ++ [⟨currentPoints, oldN⟩])
  else
    (currentPoints, st.2)

/-- The consecutive pairs `(borderPath[i-1], borderPath[i])` for
`i = 1 .. n-1`, in order. -/
def consecPairs (l : List PathPoint) : List (PathPoint × PathPoint) :=
  l.zip l.tail

/-- `_prepare_segments_per_facet` for one facet (lines 89-158): chop
the border path at the transitions and merge the final open tail into
the first segment when they face the same neighbour. -/
def prepare_segments_facet (fr : FacetMapView) (path : List PathPoint) :
    List PathSegment :=
  match path with
  | [] => []
  | [_] => []
  | p0 :: p1 :: rest =>
      let st := (consecPairs (p0 :: p1 :: rest)).foldl (prepare_step fr)
        ([p0], [])
      if 1 < st.1.length then
        let oldN := ((p0 :: p1 :: rest).getLast
          (List.cons_ne_nil _ _)).get_neighbour fr
        match st.2 with
        | [] => [⟨st.1, oldN⟩]
        | s0 :: segs =>
            if s0.neighbour = oldN then
              ⟨st.1 ++ s0.points, s0.neighbour⟩ :: segs
            else
              (s0 :: segs) ++ [⟨st.1, oldN⟩]
      else
        st.2

/-- Default path point for `getD` statements. -/
def dfltPP : PathPoint := ⟨0, 0, Orientation.Left⟩

theorem consecPairs_getD :
    ∀ (l : List PathPoint) (i : Nat), i + 1 < l.length →
      (consecPairs l).getD i (dfltPP, dfltPP) =
        (l.getD i dfltPP, l.getD (i + 1) dfltPP)
  | a :: b :: rest, 0, _ => rfl
  | a :: b :: rest, i + 1, h => by
      have ih := consecPairs_getD (b :: rest) i
        (by simpa [Nat.succ_lt_succ_iff] using h)
      simpa [consecPairs] using ih
  | [], i, h => by simp at h
  | [a], i, h => by simp at h

theorem consecPairs_length (l : List PathPoint) :
    (consecPairs l).length = l.length - 1 := by
  unfold consecPairs
  rw [List.length_zip, List.length_tail]
  omega

/-- C4: the outside-neighbour id of a wall edge is the facet-map entry
at the orientation-displaced position (`-1` outside the image), the
splitting pass marks a transition whenever the neighbours of a
consecutive pair differ, and the pair list the pass folds over holds
exactly the consecutive pairs `(borderPath[i-1], borderPath[i])` of the
border path. -/
theorem C4_get_neighbour :
    (∀ (fr : FacetMapView) (x y : Int),
      ((0 ≤ x - 1 ∧ x - 1 < fr.width ∧ 0 ≤ y ∧ y < fr.height) →
        PathPoint.get_neighbour ⟨x, y, Orientation.Left⟩ fr =
          fr.get (x - 1) y) ∧
      (¬(0 ≤ x - 1 ∧ x - 1 < fr.width ∧ 0 ≤ y ∧ y < fr.height) →
        PathPoint.get_neighbour ⟨x, y, Orientation.Left⟩ fr = -1)) ∧
    (∀ (fr : FacetMapView) (x y : Int),
      ((0 ≤ x + 1 ∧ x + 1 < fr.width ∧ 0 ≤ y ∧ y < fr.height) →
        PathPoint.get_neighbour ⟨x, y, Orientation.Right⟩ fr =
          fr.get (x + 1) y) ∧
      (¬(0 ≤ x + 1 ∧ x + 1 < fr.width ∧ 0 ≤ y ∧ y < fr.height) →
        PathPoint.get_neighbour ⟨x, y, Orientation.Right⟩ fr = -1)) ∧
    (∀ (fr : FacetMapView) (x y : Int),
      ((0 ≤ x ∧ x < fr.width ∧ 0 ≤ y - 1 ∧ y - 1 < fr.height) →
        PathPoint.get_neighbour ⟨x, y, Orientation.Top⟩ fr =
          fr.get x (y - 1)) ∧
      (¬(0 ≤ x ∧ x < fr.width ∧ 0 ≤ y - 1 ∧ y - 1 < fr.height) →
        PathPoint.get_neighbour ⟨x, y, Orientation.Top⟩ fr = -1)) ∧
    (∀ (fr : FacetMapView) (x y : Int),
      ((0 ≤ x ∧ x < fr.width ∧ 0 ≤ y + 1 ∧ y + 1 < fr.height) →
        PathPoint.get_neighbour ⟨x, y, Orientation.Bottom⟩ fr =
          fr.get x (y + 1)) ∧
      (¬(0 ≤ x ∧ x < fr.width ∧ 0 ≤ y + 1 ∧ y + 1 < fr.height) →
        PathPoint.get_neighbour ⟨x, y, Orientation.Bottom⟩ fr = -1)) ∧
    (∀ (fr : FacetMapView) (prev cur : PathPoint),
      prev.get_neighbour fr ≠ cur.get_neighbour fr →
        is_transition_point fr prev cur = true) ∧
    (∀ (l : List PathPoint),
      (consecPairs l).length = l.length - 1 ∧
      ∀ i : Nat, i + 1 < l.length →
        (consecPairs l).getD i (dfltPP, dfltPP) =
          (l.getD i dfltPP, l.getD (i + 1) dfltPP)) := by
  have hL : ∀ (x : Int), x + (-1 : Int) = x - 1 := fun x => by ring
  have hz : ∀ (x : Int), x + (0 : Int) = x := fun x => by ring
  refine ⟨?_, ?_, ?_, ?_, ?_, ?_⟩
  · intro fr x y
    unfold PathPoint.get_neighbour orientation_offset
    dsimp only
    rw [hL x, hz y]
    constructor
    · intro h; rw [if_pos h]
    · intro h; rw [if_neg h]
  · intro fr x y
    unfold PathPoint.get_neighbour orientation_offset
    dsimp only
    rw [hz y]
    constructor
    · intro h; rw [if_pos h]
    · intro h; rw [if_neg h]
  · intro fr x y
    unfold PathPoint.get_neighbour orientation_offset
    dsimp only
    rw [hL y, hz x]
    constructor
    · intro h; rw [if_pos h]
    · intro h; rw [if_neg h]
  · intro fr x y
    unfold PathPoint.get_neighbour orientation_offset
    dsimp only
    rw [hz x]
    constructor
    · intro h; rw [if_pos h]
    · intro h; rw [if_neg h]
  · intro fr prev cur hne
    unfold is_transition_point
    dsimp only
    rw [if_pos hne]
  · intro l
    exact ⟨consecPairs_length l, fun i h => consecPairs_getD l i h⟩

/-- Concrete facet map view for the C4 witness. -/
def frWitness : FacetMapView := ⟨3, 3, fun x y => x + 10 * y⟩

/-- Witness for C4 at a 3x3 facet map: a `Left` wall at (1,1) reads
the map at (0,1); a `Left` wall at (0,1) is outside the image and
yields -1; a differing consecutive pair is a transition; the pair list
of the 3-point path holds its two consecutive pairs. -/
theorem C4_get_neighbour_witness :
    PathPoint.get_neighbour ⟨1, 1, Orientation.Left⟩ frWitness =
      frWitness.get (1 - 1) 1 ∧
    PathPoint.get_neighbour ⟨0, 1, Orientation.Left⟩ frWitness = -1 ∧
    is_transition_point frWitness ⟨1, 1, Orientation.Left⟩
      ⟨1, 1, Orientation.Top⟩ = true ∧
    (consecPairs [⟨0, 0, Orientation.Top⟩, ⟨1, 0, Orientation.Top⟩,
        ⟨2, 0, Orientation.Top⟩]).getD 0 (dfltPP, dfltPP) =
      (([⟨0, 0, Orientation.Top⟩, ⟨1, 0, Orientation.Top⟩,
        ⟨2, 0, Orientation.Top⟩] : List PathPoint).getD 0 dfltPP,
       ([⟨0, 0, Orientation.Top⟩, ⟨1, 0, Orientation.Top⟩,
        ⟨2, 0, Orientation.Top⟩] : List PathPoint).getD 1 dfltPP) :=
  ⟨(C4_get_neighbour.1 frWitness 1 1).1 (by norm_num [frWitness]),
   (C4_get_neighbour.1 frWitness 0 1).2 (by norm_num [frWitness]),
   C4_get_neighbour.2.2.2.2.1 frWitness _ _ (by decide),
   (C4_get_neighbour.2.2.2.2.2 _).2 0 (by decide)⟩

/-- Python `int(x)` on a real value: truncation toward zero. -/
noncomputable def pyTruncR (x : ℝ) : ℤ := if 0 ≤ x then ⌊x⌋ else ⌈x⌉

/-- The label-bounds computation of
`FacetLabelPlacer.build_facet_label_bounds` (`facetlabelplacer.py`
lines 93-98) as a function of the polylabel result: the pole `(px, py)`
and its distance `dist` to the polygon boundary.  The code computes
`inner_padding = 2 * math.sqrt(2 * result.distance)` and truncates
`P +- inner_padding` with `int(...)`.  Returned as
`(minX, maxX, minY, maxY)`. -/
noncomputable def build_facet_label_bounds (px py dist : ℝ) :
    ℤ × ℤ × ℤ × ℤ :=
  let innerPadding := 2 * Real.sqrt (2 * dist)
  (pyTruncR (px - innerPadding), pyTruncR (px + innerPadding),
   pyTruncR (py - innerPadding), pyTruncR (py + innerPadding))

/-- The square the specification claims (and the code's own inline
comment describes): the axis-aligned square centred at the pole with
half-side `sqrt 2 * dist`. -/
noncomputable def label_bounds_spec_square (px py dist : ℝ) :
    ℤ × ℤ × ℤ × ℤ :=
  (pyTruncR (px - Real.sqrt 2 * dist), pyTruncR (px + Real.sqrt 2 * dist),
   pyTruncR (py - Real.sqrt 2 * dist), pyTruncR (py + Real.sqrt 2 * dist))

theorem sqrt_four : Real.sqrt (2 * 2) = 2 := by
  rw [show (2 : ℝ) * 2 = 2 ^ 2 by norm_num]
  exact Real.sqrt_sq (by norm_num)

theorem sqrt_two_bounds : (1.4 : ℝ) < Real.sqrt 2 ∧ Real.sqrt 2 < 1.5 := by
  constructor
  · rw [Real.lt_sqrt (by norm_num)]
    norm_num
  · rw [Real.sqrt_lt' (by norm_num)]
    norm_num

/-- C6 evaluation at the failing input: for a pole at (10,10) with
boundary distance D = 2 the code computes `inner_padding =
2*sqrt(2*2) = 4` and bounds `(6, 14, 6, 14)`, while the
claimed/commented half-side `sqrt 2 * D ≈ 2.83` gives
`(7, 12, 7, 12)`. -/
theorem C6_label_bounds_eval :
    build_facet_label_bounds 10 10 2 = (6, 14, 6, 14) ∧
    label_bounds_spec_square 10 10 2 = (7, 12, 7, 12) ∧
    build_facet_label_bounds 10 10 2 ≠ label_bounds_spec_square 10 10 2 := by
  obtain ⟨hs1, hs2⟩ := sqrt_two_bounds
  have hcode : build_facet_label_bounds 10 10 2 = (6, 14, 6, 14) := by
    unfold build_facet_label_bounds pyTruncR
    rw [sqrt_four]
    norm_num
  have hspec : label_bounds_spec_square 10 10 2 = (7, 12, 7, 12) := by
    unfold label_bounds_spec_square pyTruncR
    have hlow : (7 : ℝ) ≤ 10 - Real.sqrt 2 * 2 := by nlinarith
    have hhigh : 10 - Real.sqrt 2 * 2 < 8 := by nlinarith
    have hlow2 : (12 : ℝ) ≤ 10 + Real.sqrt 2 * 2 := by nlinarith
    have hhigh2 : 10 + Real.sqrt 2 * 2 < 13 := by nlinarith
    have hpos : (0 : ℝ) ≤ 10 - Real.sqrt 2 * 2 := by linarith
    have hpos2 : (0 : ℝ) ≤ 10 + Real.sqrt 2 * 2 := by linarith
    rw [if_pos hpos, if_pos hpos2]
    have hf1 : ⌊(10 : ℝ) - Real.sqrt 2 * 2⌋ = 7 := by
      rw [Int.floor_eq_iff]
      refine ⟨by push_cast; linarith, by push_cast; linarith⟩
    have hf2 : ⌊(10 : ℝ) + Real.sqrt 2 * 2⌋ = 12 := by
      rw [Int.floor_eq_iff]
      refine ⟨by push_cast; linarith, by push_cast; linarith⟩
    rw [hf1, hf2]
  refine ⟨hcode, hspec, ?_⟩
  rw [hcode, hspec]
  decide

/-- The only Python exception the embedded K-means paths can raise. -/
inductive PyErr where
  | indexError
deriving DecidableEq, Repr

/-- Python list indexing `l[i]`: negative indices wrap once from the
end; anything still out of range raises `IndexError`. -/
def pyListGet {α : Type} (l : List α) (i : Int) : Except PyErr α :=
  let j := if i < 0 then (l.length : Int) + i else i
  if 0 ≤ j then
    match l.get? j.toNat with
    | some a => Except.ok a
    | none => Except.error PyErr.indexError
  else
    Except.error PyErr.indexError

/-- Python `int(x)` on a rational value: truncation toward zero. -/
def pyTruncQ (x : ℚ) : ℤ := if 0 ≤ x then ⌊x⌋ else ⌈x⌉

/-- Modelled from the spec: the seeded RNG of `utils/random.py` (the
file is absent from the sources); `next()` yields a float in `[0, 1)`,
modelled as an arbitrary stream of rationals with a cursor. -/
structure PyRandom where
  seq : Nat → ℚ
  idx : Nat

/-- `PyRandom.next`: yield the current value, advance the cursor. -/
def PyRandom.next (r : PyRandom) : ℚ × PyRandom :=
  (r.seq r.idx, ⟨r.seq, r.idx + 1⟩)

/-- One iteration of `KMeans._init_centroids` (`kmeans.py` lines
84-90): `random_index = int(len(points) * random.next())`, clamped
with `min(random_index, len(points) - 1)`, then `points[random_index]`
becomes a centroid and an empty category list is appended. -/
def kmeans_pick {V : Type} (points : List V)
    (st : List V × List (List V) × PyRandom) :
    Except PyErr (List V × List (List V) × PyRandom) :=
  let rv := st.2.2.next
  let randomIndex := pyTruncQ ((points.length : ℚ) * rv.1)
  let clampedIndex := min randomIndex ((points.length : ℤ) - 1)
  match pyListGet points clampedIndex with
  | Except.ok p => Except.ok (st.1 ++ [p], st.2.1 ++ [[]], rv.2)
  | Except.error e => Except.error e

/-- `KMeans._init_centroids` (`kmeans.py` lines 82-90): `k` random
picks from the data points. -/
def kmeans_init_centroids {V : Type} (points : List V) (k : Nat)
    (rng : PyRandom) : Except PyErr (List V × List (List V) × PyRandom) :=
  (List.range k).foldlM (fun st _ => kmeans_pick points st) ([], [], rng)

/-- The observable state built by `KMeans.__init__` (`kmeans.py` lines
44-90). -/
structure KMeansState (V : Type) where
  points : List V
  k : Nat
  rng : PyRandom
  centroids : List V
  pointsPerCategory : List (List V)
  currentIteration : Nat
  currentDeltaDistance : ℚ

/-- `KMeans.__init__`: store the inputs and either adopt the provided
centroids (with `k` empty category lists) or randomly initialise.  No
validation of `k` or of the point list takes place. -/
def kmeans_new {V : Type} (points : List V) (k : Nat) (rng : PyRandom)
    (centroids : Option (List V)) : Except PyErr (KMeansState V) :=
  match centroids with
  | some cs =>
      Except.ok ⟨points, k, rng, cs, List.replicate k [], 0, 0⟩
  | none =>
      (kmeans_init_centroids points k rng).map
        (fun r => ⟨points, k, r.2.2, r.1, r.2.1, 0, 0⟩)

theorem pyListGet_nil {α : Type} (i : Int) :
    pyListGet ([] : List α) i = Except.error PyErr.indexError := by
  unfold pyListGet
  dsimp only
  repeat' split
  all_goals first
    | rfl
    | (rename_i heq; simp at heq)

theorem kmeans_pick_nil {V : Type}
    (st : List V × List (List V) × PyRandom) :
    kmeans_pick ([] : List V) st = Except.error PyErr.indexError := by
  unfold kmeans_pick
  dsimp only
  rw [pyListGet_nil]

/-- C7 (amended): `KMeans` never validates its arguments — with
`k = 0` centroid initialisation returns normally with an empty
centroid list and no category lists, and an empty point set with
`k >= 1` fails with an uncaught `IndexError` from the negative list
index produced by `min(0, -1)`, not with a designed `EmptyInput`
error. -/
theorem C7_amended {V : Type} (points : List V) (k : Nat)
    (rng : PyRandom) :
    (k = 0 → kmeans_init_centroids points 0 rng =
      Except.ok ([], [], rng)) ∧
    (points = [] → 0 < k →
      kmeans_init_centroids points k rng =
        Except.error PyErr.indexError) := by
  constructor
  · intro _
    rfl
  · intro hpts hk
    subst hpts
    match k, hk with
    | n + 1, _ =>
        unfold kmeans_init_centroids
        rw [List.range_succ_eq_map, List.foldlM_cons, kmeans_pick_nil]
        rfl

/-- An arbitrary concrete RNG stream. -/
def rng0 : PyRandom := ⟨fun _ => 0, 0⟩

/-- C7 counterexample: constructing the quantiser's `KMeans` with
`K = 0` over a non-empty point set returns a normal result (with no
centroids) — no `InvalidK` error is surfaced anywhere. -/
theorem C7_counterexample :
    kmeans_new [(0 : ℚ)] 0 rng0 none =
      Except.ok ⟨[(0 : ℚ)], 0, rng0, [], [], 0, 0⟩ := rfl

/-- Witness for the amended C7 theorem: both branches at concrete
inputs — `k = 0` over one point returns normally, and an empty point
list with `k = 1` raises `IndexError`. -/
theorem C7_amended_witness :
    (kmeans_init_centroids [(0 : ℚ)] 0 rng0 = Except.ok ([], [], rng0)) ∧
    (kmeans_init_centroids ([] : List ℚ) 1 rng0 =
      Except.error PyErr.indexError) :=
  ⟨(C7_amended [(0 : ℚ)] 0 rng0).1 rfl,
   (C7_amended ([] : List ℚ) 1 rng0).2 rfl (by decide)⟩

/-- `facetmanagement.py` (`FacetBoundarySegment`): a facet's view of a
matched segment — the canonical `PathSegment`, the neighbour id, and
the traversal direction. -/
structure FacetBoundarySegment where
  originalSegment : PathSegment
  neighbour : Int
  reverseOrder : Bool
deriving DecidableEq, Repr

/-- The mutable state of `_match_segments_with_neighbours`: the
working lists `segments_per_facet` and the facets' `borderSegments`
arrays (indexed by facet id; facet ids equal their list positions, as
`FacetBuilder.build_all_facets` assigns them). -/
structure MatchState where
  segs : List (List (Option PathSegment))
  borders : List (List (Option FacetBoundarySegment))
deriving DecidableEq, Repr

/-- Reading entry `(f, s)` of a jagged array of options. -/
def get2 {α : Type} (m : List (List (Option α))) (f s : Nat) : Option α :=
  (m.getD f []).getD s none

/-- Writing entry `(f, s)` of a jagged array of options (no-op out of
range, as the embedding only writes in range). -/
def set2 {α : Type} (m : List (List (Option α))) (f s : Nat)
    (v : Option α) : List (List (Option α)) :=
  m.set f ((m.getD f []).set s v)

/-- `segment.points[0]` (segments are non-empty by construction). -/
def segHead (s : PathSegment) : PathPoint := s.points.headD dfltPP

/-- `segment.points[-1]`. -/
def segLast (s : PathSegment) : PathPoint := s.points.getLastD dfltPP

/-- The straight endpoint-distance sum of the tiebreak
(`facetbordersegmenter.py` lines 312-313). -/
def straightDistSum (a b : PathSegment) : Nat :=
  (segHead a).distance_to (segHead b) + (segLast a).distance_to (segLast b)

/-- The reverse endpoint-distance sum (lines 314-315). -/
def reverseDistSum (a b : PathSegment) : Nat :=
  (segHead a).distance_to (segLast b) + (segLast a).distance_to (segHead b)

/-- `matches_straight` (lines 301-304): both endpoint pairs within
`MAX_SEGMENT_MATCH_DISTANCE = 4`. -/
def matchesStraightB (a b : PathSegment) : Bool :=
  (segHead a).distance_to (segHead b) ≤ 4 &&
  (segLast a).distance_to (segLast b) ≤ 4

/-- `matches_reverse` (lines 305-308). -/
def matchesReverseB (a b : PathSegment) : Bool :=
  (segHead a).distance_to (segLast b) ≤ 4 &&
  (segLast a).distance_to (segHead b) ≤ 4

/-- The selection of lines 301-337: `some rev` when the pair matches,
with `rev` marking a reverse-order match; when both directions match,
the smaller endpoint-distance sum wins (reverse on ties). -/
def chooseReverse (a b : PathSegment) : Option Bool :=
  let ms := matchesStraightB a b
  let mr := matchesReverseB a b
  if ms && mr then
    if straightDistSum a b < reverseDistSum a b then some false
    else some true
  else if ms then some false
  else if mr then some true
  else none

/-- The inner scan of lines 289-337 over the neighbour's working
list: the first not-yet-consumed segment that faces back at facet
`fid` and matches; returns its index, the chosen direction, and the
matched segment. -/
def findMatch (fid : Nat) (seg : PathSegment) :
    List (Option PathSegment) → Option (Nat × Bool × PathSegment)
  | [] => none
  | none :: rest =>
      (findMatch fid seg rest).map (fun r => (r.1 + 1, r.2))
  | some nseg :: rest =>
      if nseg.neighbour = (fid : Int) then
        match chooseReverse seg nseg with
        | some rev => some (0, rev, nseg)
        | none => (findMatch fid seg rest).map (fun r => (r.1 + 1, r.2))
      else
        (findMatch fid seg rest).map (fun r => (r.1 + 1, r.2))

/-- Record of one successful match, used to state what the pass did:
facet `A`'s slot `s` (segment `seg`) was matched with facet `B`'s slot
`ns` (segment `nseg`) in direction `rev`. -/
structure MatchLog where
  A : Nat
  s : Nat
  B : Nat
  ns : Nat
  rev : Bool
  seg : PathSegment
  nseg : PathSegment
deriving DecidableEq, Repr

/-- The body of the slot loop of `_match_segments_with_neighbours`
(lines 275-340): skip consumed or already-filled slots; otherwise set
the facet's own `FacetBoundarySegment` (forward direction), and — for
a real, live neighbour — scan its working list; on a match install the
shared `PathSegment` on the neighbour's side with the chosen direction
and consume the neighbour's slot; finally consume the own slot.
(A neighbour id other than `-1` that is negative or out of range would
wrap or raise in Python; ids in the pipeline are list positions, and
the embedding treats such ids as having no live facet.) -/
def processSlot (alive : List Bool) (st : MatchState) (slot : Nat × Nat) :
    MatchState × Option MatchLog :=
  match get2 st.segs slot.1 slot.2, get2 st.borders slot.1 slot.2 with
  | some seg, none =>
      let withOwn := set2 st.borders slot.1 slot.2
        (some ⟨seg, seg.neighbour, false⟩)
      if 0 ≤ seg.neighbour ∧ seg.neighbour.toNat < alive.length ∧
          alive.getD seg.neighbour.toNat false = true then
        match findMatch slot.1 seg (st.segs.getD seg.neighbour.toNat []) with
        | some r =>
            (⟨set2 (set2 st.segs seg.neighbour.toNat r.1 none)
                slot.1 slot.2 none,
              set2 withOwn seg.neighbour.toNat r.1
                (some ⟨seg, (slot.1 : Int), r.2.1⟩)⟩,
             some ⟨slot.1, slot.2, seg.neighbour.toNat, r.1, r.2.1, seg,
               r.2.2⟩)
        | none =>
            (⟨set2 st.segs slot.1 slot.2 none, withOwn⟩, none)
      else
        (⟨set2 st.segs slot.1 slot.2 none, withOwn⟩, none)
  | _, _ => (st, none)

/-- The slots visited by the pass, in order: all segment indices of
every live facet (`for f in facets: if f is not None: for s in
range(len(segments_per_facet[f.id]))`; the range lengths never change
during the pass, as entries are only overwritten with `None`). -/
def slotList (alive : List Bool)
    (segs0 : List (List (Option PathSegment))) : List (Nat × Nat) :=
  (List.range segs0.length).flatMap
    (fun f =>
      if alive.getD f false = true then
        (List.range ((segs0.getD f []).length)).map (fun s => (f, s))
      else
        [])

/-- Run the pass over a worklist of slots, collecting the match log. -/
def matchRun (alive : List Bool) :
    List (Nat × Nat) → MatchState → MatchState × List MatchLog
  | [], st => (st, [])
  | slot :: rest, st =>
      let step := processSlot alive st slot
      let tail := matchRun alive rest step.1
      (tail.1, step.2.toList ++ tail.2)

/-- `FacetBorderSegmenter._match_segments_with_neighbours`
(`facetbordersegmenter.py` lines 246-347): reserve a `None`-filled
`borderSegments` array per live facet, then process every slot. -/
def match_segments_with_neighbours (alive : List Bool)
    (segs0 : List (List (Option PathSegment))) :
    MatchState × List MatchLog :=
  let borders0 := (List.range segs0.length).map
    (fun f =>
      if alive.getD f false = true then
        List.replicate ((segs0.getD f []).length)
          (none : Option FacetBoundarySegment)
      else
        [])
  matchRun alive (slotList alive segs0) ⟨segs0, borders0⟩

theorem getD_set_list {α : Type} (m : List α) (f g : Nat) (x d : α) :
    (m.set f x).getD g d =
      if f = g ∧ f < m.length then x else m.getD g d := by
  by_cases hfg : f = g
  · subst hfg
    by_cases hlen : f < m.length
    · simp [List.getD, List.getElem?_set_self, hlen]
    · have h1 : (m.set f x)[f]? = none :=
        List.getElem?_eq_none (by simpa using (by omega : m.length ≤ f))
      have h2 : m[f]? = none := List.getElem?_eq_none (by omega)
      simp [List.getD, h1, h2, hlen]
  · simp [List.getD, List.getElem?_set_ne hfg, hfg]

theorem get2_set2 {α : Type} (m : List (List (Option α))) (a b : Nat)
    (v : Option α) (g t : Nat) :
    get2 (set2 m a b v) g t =
      if a = g ∧ b = t ∧ a < m.length ∧ b < (m.getD a []).length then v
      else get2 m g t := by
  unfold get2 set2
  rw [getD_set_list]
  by_cases hag : a = g
  · subst hag
    by_cases hlen : a < m.length
    · rw [if_pos ⟨rfl, hlen⟩, getD_set_list]
      by_cases hbt : b = t
      · subst hbt
        by_cases hbl : b < (m.getD a []).length
        · rw [if_pos ⟨rfl, hbl⟩, if_pos ⟨rfl, rfl, hlen, hbl⟩]
        · rw [if_neg (by tauto), if_neg (by tauto)]
      · rw [if_neg (by tauto), if_neg (by tauto)]
    · rw [if_neg (by tauto), if_neg (by tauto)]
  · rw [if_neg (by tauto), if_neg (by tauto)]

theorem set2_outer_length {α : Type} (m : List (List (Option α)))
    (a b : Nat) (v : Option α) : (set2 m a b v).length = m.length := by
  simp [set2]

theorem set2_inner_length {α : Type} (m : List (List (Option α)))
    (a b : Nat) (v : Option α) (g : Nat) :
    ((set2 m a b v).getD g []).length = (m.getD g []).length := by
  unfold set2
  rw [getD_set_list]
  split
  · rename_i h
    rw [← h.1]
    simp
  · rfl

theorem findMatch_spec (fid : Nat) (seg : PathSegment) :
    ∀ (l : List (Option PathSegment)) (ns : Nat) (rev : Bool)
      (nseg : PathSegment),
      findMatch fid seg l = some (ns, rev, nseg) →
      ns < l.length ∧ l.getD ns none = some nseg ∧
      nseg.neighbour = (fid : Int) ∧ chooseReverse seg nseg = some rev
  | [], ns, rev, nseg => by
      intro h
      simp [findMatch] at h
  | none :: rest, ns, rev, nseg => by
      intro h
      simp only [findMatch, Option.map_eq_some'] at h
      obtain ⟨⟨ns', rest'⟩, hr, heq⟩ := h
      simp only [Prod.ext_iff] at heq
      obtain ⟨hns, hrev, hnseg⟩ := heq
      have ih := findMatch_spec fid seg rest ns' rest'.1 rest'.2
        (by exact hr)
      subst hns hrev hnseg
      refine ⟨by simpa using Nat.succ_lt_succ ih.1, ?_, ih.2.2⟩
      simpa using ih.2.1
  | some cand :: rest, ns, rev, nseg => by
      intro h
      simp only [findMatch] at h
      split at h
      · rename_i hnb
        split at h
        · rename_i rev' hcr
          simp only [Option.some.injEq, Prod.ext_iff] at h
          obtain ⟨hns, hrev, hnseg⟩ := h
          subst hns hrev hnseg
          exact ⟨by simp, by simp, hnb, hcr⟩
        · rename_i hcr
          simp only [Option.map_eq_some'] at h
          obtain ⟨⟨ns', rest'⟩, hr, heq⟩ := h
          simp only [Prod.ext_iff] at heq
          obtain ⟨hns, hrev, hnseg⟩ := heq
          have ih := findMatch_spec fid seg rest ns' rest'.1 rest'.2
            (by exact hr)
          subst hns hrev hnseg
          refine ⟨by simpa using Nat.succ_lt_succ ih.1, ?_, ih.2.2⟩
          simpa using ih.2.1
      · rename_i hnb
        simp only [Option.map_eq_some'] at h
        obtain ⟨⟨ns', rest'⟩, hr, heq⟩ := h
        simp only [Prod.ext_iff] at heq
        obtain ⟨hns, hrev, hnseg⟩ := heq
        have ih := findMatch_spec fid seg rest ns' rest'.1 rest'.2
          (by exact hr)
        subst hns hrev hnseg
        refine ⟨by simpa using Nat.succ_lt_succ ih.1, ?_, ih.2.2⟩
        simpa using ih.2.1

/-- Dimension bookkeeping for the matching pass: the facet list, the
working lists, and the `borderSegments` arrays all have one entry per
facet, the working-list lengths are fixed (`dims`), and a live facet's
`borderSegments` array has the same length as its working list. -/
def DimOk (alive : List Bool) (dims : List Nat) (st : MatchState) :
    Prop :=
  alive.length = dims.length ∧
  st.segs.length = dims.length ∧
  st.borders.length = dims.length ∧
  (∀ f, (st.segs.getD f []).length = dims.getD f 0) ∧
  (∀ f, f < dims.length → alive.getD f false = true →
    (st.borders.getD f []).length = dims.getD f 0)

theorem processSlot_dims (alive : List Bool) (dims : List Nat)
    (st : MatchState) (slot : Nat × Nat) (h : DimOk alive dims st) :
    DimOk alive dims (processSlot alive st slot).1 := by
  obtain ⟨h0, h1, h2, h3, h4⟩ := h
  unfold processSlot
  repeat' split
  all_goals
    refine ⟨h0, ?_, ?_, fun f => ?_, fun f hf ha => ?_⟩ <;>
      simp only [set2_outer_length, set2_inner_length] <;>
      first
        | exact h1
        | exact h2
        | exact h3 f
        | exact h4 f hf ha

theorem processSlot_freeze (alive : List Bool) (st : MatchState)
    (slot : Nat × Nat) (g t : Nat)
    (hseg : get2 st.segs g t = none) :
    get2 (processSlot alive st slot).1.segs g t = none ∧
    get2 (processSlot alive st slot).1.borders g t =
      get2 st.borders g t := by
  unfold processSlot
  cases hA : get2 st.segs slot.1 slot.2 with
  | none => exact ⟨hseg, rfl⟩
  | some seg =>
      cases hB : get2 st.borders slot.1 slot.2 with
      | some bs => exact ⟨hseg, rfl⟩
      | none =>
          have hslot_ne : (slot.1, slot.2) ≠ (g, t) := by
            intro hcon
            rw [(congrArg Prod.fst hcon : slot.1 = g),
              (congrArg Prod.snd hcon : slot.2 = t), hseg] at hA
            exact Option.noConfusion hA
          dsimp only
          split
          · rename_i hlive
            cases hFM : findMatch slot.1 seg
                (st.segs.getD seg.neighbour.toNat []) with
            | none =>
                refine ⟨?_, ?_⟩
                · rw [get2_set2]
                  split
                  · rfl
                  · exact hseg
                · rw [get2_set2, if_neg (fun hcon =>
                    hslot_ne (by simp [hcon.1, hcon.2.1]))]
            | some r =>
                have hspec := findMatch_spec slot.1 seg _ r.1 r.2.1 r.2.2
                  (by rw [hFM])
                have hBn_ne : (seg.neighbour.toNat, r.1) ≠ (g, t) := by
                  intro hcon
                  have hg : seg.neighbour.toNat = g :=
                    congrArg Prod.fst hcon
                  have ht : r.1 = t := congrArg Prod.snd hcon
                  have : get2 st.segs g t = some r.2.2 := by
                    rw [← hg, ← ht]
                    exact hspec.2.1
                  rw [hseg] at this
                  exact Option.noConfusion this
                refine ⟨?_, ?_⟩
                · rw [get2_set2]
                  split
                  · rfl
                  · rw [get2_set2]
                    split
                    · rfl
                    · exact hseg
                · rw [get2_set2, if_neg (fun hcon =>
                      hBn_ne (by simp [hcon.1, hcon.2.1]))]
                  rw [get2_set2, if_neg (fun hcon =>
                      hslot_ne (by simp [hcon.1, hcon.2.1]))]
          · refine ⟨?_, ?_⟩
            · rw [get2_set2]
              split
              · rfl
              · exact hseg
            · rw [get2_set2, if_neg (fun hcon =>
                hslot_ne (by simp [hcon.1, hcon.2.1]))]

theorem matchRun_freeze (alive : List Bool) :
    ∀ (slots : List (Nat × Nat)) (st : MatchState) (g t : Nat),
      get2 st.segs g t = none →
      get2 (matchRun alive slots st).1.segs g t = none ∧
      get2 (matchRun alive slots st).1.borders g t =
        get2 st.borders g t
  | [], st, g, t, hseg => ⟨hseg, rfl⟩
  | slot :: rest, st, g, t, hseg => by
      have hstep := processSlot_freeze alive st slot g t hseg
      have ih := matchRun_freeze alive rest (processSlot alive st slot).1
        g t hstep.1
      unfold matchRun
      exact ⟨ih.1, by rw [ih.2, hstep.2]⟩

theorem processSlot_log_facts (alive : List Bool) (dims : List Nat)
    (st : MatchState) (slot : Nat × Nat) (e : MatchLog)
    (hdim : DimOk alive dims st)
    (hs1 : slot.1 < dims.length)
    (hs2 : slot.2 < dims.getD slot.1 0)
    (halive : alive.getD slot.1 false = true)
    (hout : (processSlot alive st slot).2 = some e)
    (hBA : e.B ≠ e.A) :
    e.A = slot.1 ∧ e.s = slot.2 ∧ e.seg.neighbour = (e.B : Int) ∧
    chooseReverse e.seg e.nseg = some e.rev ∧
    get2 (processSlot alive st slot).1.borders e.A e.s =
      some ⟨e.seg, e.seg.neighbour, false⟩ ∧
    get2 (processSlot alive st slot).1.borders e.B e.ns =
      some ⟨e.seg, (e.A : Int), e.rev⟩ ∧
    get2 (processSlot alive st slot).1.segs e.A e.s = none ∧
    get2 (processSlot alive st slot).1.segs e.B e.ns = none := by
  obtain ⟨h0, h1, h2, h3, h4⟩ := hdim
  unfold processSlot at hout ⊢
  cases hA : get2 st.segs slot.1 slot.2 with
  | none => rw [hA] at hout; exact absurd hout (by simp)
  | some seg =>
      cases hB : get2 st.borders slot.1 slot.2 with
      | some bs => rw [hA, hB] at hout; exact absurd hout (by simp)
      | none =>
          rw [hA, hB] at hout
          dsimp only at hout ⊢
          split at hout
          case isFalse => exact absurd hout (by simp)
          case isTrue hlive =>
            rw [if_pos hlive]
            cases hFM : findMatch slot.1 seg
                (st.segs.getD seg.neighbour.toNat []) with
            | none => rw [hFM] at hout; exact absurd hout (by simp)
            | some r =>
                rw [hFM] at hout
                dsimp only at hout
                have he : (⟨slot.1, slot.2, seg.neighbour.toNat, r.1,
                    r.2.1, seg, r.2.2⟩ : MatchLog) = e := by
                  exact Option.some.inj hout
                subst he
                dsimp only
                simp only [] at hBA
                have hspec := findMatch_spec slot.1 seg _ r.1 r.2.1 r.2.2
                  (by rw [hFM])
                have hBlt : seg.neighbour.toNat < dims.length := by
                  rw [← h0]
                  exact hlive.2.1
                have hBborders : (st.borders.getD seg.neighbour.toNat
                    []).length = dims.getD seg.neighbour.toNat 0 :=
                  h4 _ hBlt hlive.2.2
                have hAborders : (st.borders.getD slot.1 []).length =
                    dims.getD slot.1 0 := h4 _ hs1 halive
                have hnslt : r.1 < dims.getD seg.neighbour.toNat 0 := by
                  rw [← h3 seg.neighbour.toNat]
                  exact hspec.1
                have hc5 : slot.1 < st.borders.length := by omega
                have hc5' : slot.2 < (st.borders.getD slot.1 []).length := by
                  omega
                have hc6 : seg.neighbour.toNat <
                    (set2 st.borders slot.1 slot.2
                      (some ⟨seg, seg.neighbour, false⟩)).length := by
                  rw [set2_outer_length]
                  omega
                have hc6' : r.1 <
                    ((set2 st.borders slot.1 slot.2
                      (some ⟨seg, seg.neighbour, false⟩)).getD
                        seg.neighbour.toNat []).length := by
                  rw [set2_inner_length]
                  omega
                have hc7 : slot.1 <
                    (set2 st.segs seg.neighbour.toNat r.1 none).length := by
                  rw [set2_outer_length]
                  omega
                have hc7' : slot.2 <
                    ((set2 st.segs seg.neighbour.toNat r.1 none).getD
                      slot.1 []).length := by
                  rw [set2_inner_length, h3 slot.1]
                  exact hs2
                have hc8 : seg.neighbour.toNat < st.segs.length := by omega
                refine ⟨rfl, rfl, (Int.toNat_of_nonneg hlive.1).symm,
                  hspec.2.2.2, ?_, ?_, ?_, ?_⟩
                · rw [get2_set2, if_neg (fun hcon => hBA hcon.1),
                    get2_set2, if_pos ⟨rfl, rfl, hc5, hc5'⟩]
                · rw [get2_set2, if_pos ⟨rfl, rfl, hc6, hc6'⟩]
                · rw [get2_set2, if_pos ⟨rfl, rfl, hc7, hc7'⟩]
                · rw [get2_set2, if_neg (fun hcon => hBA hcon.1.symm),
                    get2_set2, if_pos ⟨rfl, rfl, hc8, hspec.1⟩]

theorem chooseReverse_spec (a b : PathSegment) (rev : Bool)
    (h : chooseReverse a b = some rev) :
    (rev = true ↔ matchesReverseB a b = true ∧
      (matchesStraightB a b = false ∨
        ¬ straightDistSum a b < reverseDistSum a b)) := by
  unfold chooseReverse at h
  dsimp only at h
  cases hms : matchesStraightB a b <;> cases hmr : matchesReverseB a b <;>
    rw [hms, hmr] at h
  · simp at h
  · simp only [Bool.false_and, Bool.false_eq_true, if_false,
      if_true, Option.some.injEq] at h
    subst h
    simp [hms, hmr]
  · simp only [Bool.and_false, Bool.false_eq_true, if_false, if_true,
      Option.some.injEq] at h
    subst h
    simp [hmr]
  · rw [if_pos (by simp)] at h
    by_cases hsd : straightDistSum a b < reverseDistSum a b
    · rw [if_pos hsd] at h
      have hrev := Option.some.inj h
      subst hrev
      simp [hms, hmr, hsd]
    · rw [if_neg hsd] at h
      have hrev := Option.some.inj h
      subst hrev
      simp [hms, hmr, hsd]

theorem slotList_mem {alive : List Bool}
    {segs0 : List (List (Option PathSegment))} {sl : Nat × Nat}
    (h : sl ∈ slotList alive segs0) :
    alive.getD sl.1 false = true ∧ sl.1 < segs0.length ∧
      sl.2 < (segs0.getD sl.1 []).length := by
  simp only [slotList, List.mem_flatMap, List.mem_range] at h
  obtain ⟨f, hf, hmem⟩ := h
  by_cases ha : alive.getD f false = true
  · rw [if_pos ha] at hmem
    simp only [List.mem_map, List.mem_range] at hmem
    obtain ⟨s, hs, rfl⟩ := hmem
    exact ⟨ha, hf, hs⟩
  · rw [if_neg ha] at hmem
    simp at hmem

theorem matchRun_log_facts (alive : List Bool) (dims : List Nat) :
    ∀ (slots : List (Nat × Nat)) (st : MatchState),
      DimOk alive dims st →
      (∀ sl ∈ slots, alive.getD sl.1 false = true ∧
        sl.1 < dims.length ∧ sl.2 < dims.getD sl.1 0) →
      ∀ e ∈ (matchRun alive slots st).2, e.B ≠ e.A →
        get2 (matchRun alive slots st).1.borders e.A e.s =
          some ⟨e.seg, e.seg.neighbour, false⟩ ∧
        get2 (matchRun alive slots st).1.borders e.B e.ns =
          some ⟨e.seg, (e.A : Int), e.rev⟩ ∧
        get2 (matchRun alive slots st).1.segs e.A e.s = none ∧
        get2 (matchRun alive slots st).1.segs e.B e.ns = none ∧
        e.seg.neighbour = (e.B : Int) ∧
        chooseReverse e.seg e.nseg = some e.rev
  | [], st, _, _, e, he => by simp [matchRun] at he
  | slot :: rest, st, hdim, hslots, e, he => by
      intro hBA
      have hdim' := processSlot_dims alive dims st slot hdim
      have hslots' := fun sl hsl =>
        hslots sl (List.mem_cons_of_mem slot hsl)
      unfold matchRun at he ⊢
      dsimp only at he ⊢
      rw [List.mem_append] at he
      rcases he with he | he
      · -- the entry was produced by this step
        cases hps : (processSlot alive st slot).2 with
        | none => rw [hps] at he; simp at he
        | some e' =>
            rw [hps] at he
            have hee : e = e' := by simpa using he
            subst hee
            have hsl := hslots slot (List.mem_cons_self slot rest)
            have hfacts := processSlot_log_facts alive dims st slot e
              hdim hsl.2.1 hsl.2.2 hsl.1 hps hBA
            obtain ⟨_, _, hnb, hcr, hb1, hb2, hg1, hg2⟩ := hfacts
            have hfr1 := matchRun_freeze alive rest
              (processSlot alive st slot).1 e.A e.s hg1
            have hfr2 := matchRun_freeze alive rest
              (processSlot alive st slot).1 e.B e.ns hg2
            exact ⟨by rw [hfr1.2, hb1], by rw [hfr2.2, hb2],
              hfr1.1, hfr2.1, hnb, hcr⟩
      · exact matchRun_log_facts alive dims rest
          (processSlot alive st slot).1 hdim' hslots' e he hBA

theorem match_segments_init_dims (alive : List Bool)
    (segs0 : List (List (Option PathSegment)))
    (halen : alive.length = segs0.length) :
    DimOk alive (segs0.map List.length)
      ⟨segs0, (List.range segs0.length).map
        (fun f =>
          if alive.getD f false = true then
            List.replicate ((segs0.getD f []).length)
              (none : Option FacetBoundarySegment)
          else
            [])⟩ := by
  have hdimsf : ∀ f, (segs0.map List.length).getD f 0 =
      (segs0.getD f []).length := by
    intro f
    by_cases hf : f < segs0.length
    · simp [List.getD, List.getElem?_map, List.getElem?_eq_getElem hf]
    · have h1 : (segs0.map List.length)[f]? = none :=
        List.getElem?_eq_none (by simpa using (by omega : segs0.length ≤ f))
      have h2 : segs0[f]? = none := List.getElem?_eq_none (by omega)
      simp [List.getD, h1, h2]
  refine ⟨by simpa using halen, by simp, by simp, fun f => (hdimsf f).symm,
    fun f hf ha => ?_⟩
  have hf' : f < segs0.length := by simpa using hf
  have : ((List.range segs0.length).map
      (fun f =>
        if alive.getD f false = true then
          List.replicate ((segs0.getD f []).length)
            (none : Option FacetBoundarySegment)
        else
          []))[f]? = some (if alive.getD f false = true then
            List.replicate ((segs0.getD f []).length)
              (none : Option FacetBoundarySegment)
          else
            []) := by
    rw [List.getElem?_map, List.getElem?_range hf']
    rfl
  show ((List.map _ (List.range segs0.length)).getD f []).length = _
  rw [List.getD, List.get?_eq_getElem?, this, Option.getD_some, if_pos ha,
    List.length_replicate]
  exact (hdimsf f).symm

/-- C3: whenever the matching pass matches a segment `seg` of facet
`A` (slot `s`) with a segment of its neighbour `B` (slot `ns`), the
final state stores the single canonical `PathSegment` on both sides —
`A`'s entry is `⟨seg, B, reverseOrder := false⟩` and `B`'s entry is
`⟨seg, A, rev⟩` with the same `seg` — both working-list slots are
cleared so neither is ever matched again, and `rev` is `true` exactly
when the reverse-endpoint match was selected (the straight match wins
only when both match and its endpoint-distance sum is strictly
smaller). -/
theorem C3_match_canonical (alive : List Bool)
    (segs0 : List (List (Option PathSegment)))
    (halen : alive.length = segs0.length) (e : MatchLog)
    (he : e ∈ (match_segments_with_neighbours alive segs0).2)
    (hBA : e.B ≠ e.A) :
    get2 (match_segments_with_neighbours alive segs0).1.borders e.A e.s =
      some ⟨e.seg, e.seg.neighbour, false⟩ ∧
    get2 (match_segments_with_neighbours alive segs0).1.borders e.B e.ns =
      some ⟨e.seg, (e.A : Int), e.rev⟩ ∧
    get2 (match_segments_with_neighbours alive segs0).1.segs e.A e.s =
      none ∧
    get2 (match_segments_with_neighbours alive segs0).1.segs e.B e.ns =
      none ∧
    e.seg.neighbour = (e.B : Int) ∧
    (e.rev = true ↔ matchesReverseB e.seg e.nseg = true ∧
      (matchesStraightB e.seg e.nseg = false ∨
        ¬ straightDistSum e.seg e.nseg < reverseDistSum e.seg e.nseg)) := by
  have hinit := match_segments_init_dims alive segs0 halen
  have hslots : ∀ sl ∈ slotList alive segs0,
      alive.getD sl.1 false = true ∧ sl.1 < (segs0.map List.length).length ∧
        sl.2 < (segs0.map List.length).getD sl.1 0 := by
    intro sl hsl
    have h := slotList_mem hsl
    refine ⟨h.1, by simpa using h.2.1, ?_⟩
    by_cases hf : sl.1 < segs0.length
    · rw [show (segs0.map List.length).getD sl.1 0 =
        (segs0.getD sl.1 []).length from by
          simp [List.getD, List.getElem?_map, List.getElem?_eq_getElem hf]]
      exact h.2.2
    · exact absurd h.2.1 hf
  have hmain := matchRun_log_facts alive (segs0.map List.length)
    (slotList alive segs0) _ hinit hslots e he hBA
  exact ⟨hmain.1, hmain.2.1, hmain.2.2.1, hmain.2.2.2.1, hmain.2.2.2.2.1,
    chooseReverse_spec e.seg e.nseg e.rev hmain.2.2.2.2.2⟩

/-- Segment of facet 0 facing facet 1, for the C3 witness. -/
def segWitnessA : PathSegment :=
  ⟨[⟨0, 0, Orientation.Left⟩, ⟨0, 1, Orientation.Left⟩], 1⟩

/-- Segment of facet 1 facing facet 0, for the C3 witness. -/
def segWitnessB : PathSegment :=
  ⟨[⟨0, 0, Orientation.Left⟩, ⟨0, 1, Orientation.Left⟩], 0⟩

/-- The match log entry the pass produces on the witness input. -/
def logWitness : MatchLog := ⟨0, 0, 1, 0, false, segWitnessA, segWitnessB⟩

/-- Witness for C3 on a concrete two-facet state with one segment
each: the pass matches them; the theorem then yields the shared
canonical segment on both sides and the cleared working slots. -/
theorem C3_match_canonical_witness :
    get2 (match_segments_with_neighbours [true, true]
        [[some segWitnessA], [some segWitnessB]]).1.borders
      logWitness.A logWitness.s =
      some ⟨logWitness.seg, logWitness.seg.neighbour, false⟩ ∧
    get2 (match_segments_with_neighbours [true, true]
        [[some segWitnessA], [some segWitnessB]]).1.borders
      logWitness.B logWitness.ns =
      some ⟨logWitness.seg, (logWitness.A : Int), logWitness.rev⟩ ∧
    get2 (match_segments_with_neighbours [true, true]
        [[some segWitnessA], [some segWitnessB]]).1.segs
      logWitness.A logWitness.s = none ∧
    get2 (match_segments_with_neighbours [true, true]
        [[some segWitnessA], [some segWitnessB]]).1.segs
      logWitness.B logWitness.ns = none ∧
    logWitness.seg.neighbour = (logWitness.B : Int) ∧
    (logWitness.rev = true ↔
      matchesReverseB logWitness.seg logWitness.nseg = true ∧
      (matchesStraightB logWitness.seg logWitness.nseg = false ∨
        ¬ straightDistSum logWitness.seg logWitness.nseg <
          reverseDistSum logWitness.seg logWitness.nseg)) :=
  C3_match_canonical [true, true] [[some segWitnessA], [some segWitnessB]]
    (by decide) logWitness (by decide) (by decide)

/-- `structs/point.py` (`Point`) as used by the facet reducer: border
points carry in-image pixel coordinates. -/
structure RPoint where
  x : Nat
  y : Nat
deriving DecidableEq, Repr

/-- `Point.distance_to_coord`: Manhattan distance. -/
def RPoint.distance_to_coord (p : RPoint) (x y : Nat) : Nat :=
  ((x : Int) - p.x).natAbs + ((y : Int) - p.y).natAbs

/-- Python `sys.maxsize` on a 64-bit build. -/
def pySysMaxsize : Int := 9223372036854775807

/-- `structs/boundingbox.py` (`BoundingBox`): inclusive bounds with
the extreme initial sentinels of `BoundingBox.__init__`. -/
structure BBoxI where
  minX : Int
  minY : Int
  maxX : Int
  maxY : Int
deriving DecidableEq, Repr

/-- The initial sentinel bounding box (`sys.maxsize`,
`-sys.maxsize - 1`). -/
def BBoxI.initial : BBoxI :=
  ⟨pySysMaxsize, pySysMaxsize, -pySysMaxsize - 1, -pySysMaxsize - 1⟩

/-- Python `range(a, b + 1)` over integers. -/
def intRangeIncl (a b : Int) : List Int :=
  (List.range (b + 1 - a).toNat).map (fun k => a + k)

/-- The pixel coordinates of `for j in range(minY, maxY + 1): for i in
range(minX, maxX + 1)`, as in-image `Nat` pairs `(x, y)` (the reducer
only iterates over bounding boxes of existing facets, which lie in the
image). -/
def bboxCoords (b : BBoxI) : List (Nat × Nat) :=
  (intRangeIncl b.minY b.maxY).flatMap
    (fun j => (intRangeIncl b.minX b.maxX).map (fun i => (i.toNat, j.toNat)))

/-- `facetmanagement.py` (`Facet`) restricted to the fields the
reducer reads and writes. -/
structure RFacet where
  id : Nat
  color : Nat
  pointCount : Nat
  borderPoints : List RPoint
  neighbourFacets : Option (List Nat)
  neighbourFacetsIsDirty : Bool
  bbox : BBoxI
deriving DecidableEq, Repr

/-- `facetmanagement.py` (`FacetResult`): the image dimensions, the
flat row-major facet-id map (a `Uint32Array2D`; ids stay far below
`2^32`), and the facet slots (vacated slots are `none`). -/
structure RFacetResult where
  width : Nat
  height : Nat
  facetMap : List Nat
  facets : List (Option RFacet)
deriving DecidableEq, Repr

/-- `facetMap.get`. -/
def fmGet (fr : RFacetResult) (x y : Nat) : Nat :=
  fr.facetMap.getD (y * fr.width + x) 0

/-- `facetMap.set`. -/
def fmSet (fr : RFacetResult) (x y v : Nat) : RFacetResult :=
  { fr with facetMap := fr.facetMap.set (y * fr.width + x) v }

/-- Replace a facet slot. -/
def setFacet (fr : RFacetResult) (idx : Nat) (v : Option RFacet) :
    RFacetResult :=
  { fr with facets := fr.facets.set idx v }

/-- Read of the reusable `BooleanArray2D` visited cache. -/
def visGet (width : Nat) (vis : List Bool) (x y : Nat) : Bool :=
  vis.getD (y * width + x) false

/-- Write of the visited cache. -/
def visSet (width : Nat) (vis : List Bool) (x y : Nat) (b : Bool) :
    List Bool :=
  vis.set (y * width + x) b

/-- Modelled from the spec: `get_neighbors_4` of `utils/boundary.py`
(absent from the sources) — the in-bounds orthogonal neighbours of a
pixel; the enumeration order (left, top, right, bottom) is a modelling
choice and only influences the first-appearance order of neighbour
ids, which no settled claim depends on. -/
def get_neighbors_4 (x y width height : Nat) : List RPoint :=
  (if 0 < x then [⟨x - 1, y⟩] else []) ++
  (if 0 < y then [⟨x, y - 1⟩] else []) ++
  (if x + 1 < width then [⟨x + 1, y⟩] else []) ++
  (if y + 1 < height then [⟨x, y + 1⟩] else [])

/-- Append an element to a set-as-list if absent (models
`set.add`). -/
def insertUniq (l : List Nat) (a : Nat) : List Nat :=
  if a ∈ l then l else l ++ [a]

/-- First-occurrence deduplication, modelling the iteration order of
the CPython set of small ints in `build_facet_neighbour` (only the
membership matters to the settled claims). -/
def dedupKeepFirst (l : List Nat) : List Nat :=
  l.foldl insertUniq []

/-- `FacetBuilder.build_facet_neighbour` (`facetbuilder.py` lines
279-311): collect the distinct facet ids found next to the border
points, drop the own id, clear the dirty flag. -/
def build_facet_neighbour (fr : RFacetResult) (f : RFacet) : RFacet :=
  let ids := f.borderPoints.flatMap
    (fun pt => (get_neighbors_4 pt.x pt.y fr.width fr.height).map
      (fun n => fmGet fr n.x n.y))
  { f with
    neighbourFacets := some (dedupKeepFirst (ids.filter (fun i => i ≠ f.id))),
    neighbourFacetsIsDirty := false }

/-- The state threaded through one flood fill of
`FacetBuilder.build_facet`: the facet being accumulated, the visited
cache, and the facet result whose `facetMap` the fill writes. -/
structure FillState where
  facet : RFacet
  vis : List Bool
  fr : RFacetResult
deriving Repr

/-- The `on_fill` callback of `build_facet` (`facetbuilder.py` lines
98-119): mark visited, write the facet id into the map, bump the
count, record a border point unless all four neighbours share the
colour, and grow the bounding box. -/
def buildFacetOnFill (img : Uint8Array2D) (facetIndex facetColorIndex : Nat)
    (st : FillState) (x y : Nat) : FillState :=
  let vis' := visSet st.fr.width st.vis x y true
  let fr' := fmSet st.fr x y facetIndex
  let f := st.facet
  let isInner := img.match_all_around x y facetColorIndex
  let bp := if isInner then f.borderPoints else f.borderPoints ++ [⟨x, y⟩]
  let b := f.bbox
  let b := { b with maxX := if (x : Int) > b.maxX then (x : Int) else b.maxX }
  let b := { b with maxY := if (y : Int) > b.maxY then (y : Int) else b.maxY }
  let b := { b with minX := if (x : Int) < b.minX then (x : Int) else b.minX }
  let b := { b with minY := if (y : Int) < b.minY then (y : Int) else b.minY }
  { facet :=
      { f with
        pointCount := f.pointCount + 1
        borderPoints := bp
        bbox := b }
    vis := vis'
    fr := fr' }

/-- Modelled from the spec: the 4-connected flood fill of
`algorithms/flood_fill.py` (absent from the sources), spec section 4.3
— breadth-first from the start pixel, constrained by the
`should_include` test of `build_facet` (unvisited and of the facet's
colour), invoking `on_fill` on every included pixel.  The fuel bounds
the number of processed queue entries; each image pixel is enqueued at
most five times (the seed plus once per neighbour), so
`5 * (width * height + 1)` suffices. -/
def buildFacetLoop (img : Uint8Array2D) (facetIndex facetColorIndex : Nat)
    (width height : Nat) :
    Nat → List (Nat × Nat) → FillState → FillState
  | 0, _, st => st
  | _ + 1, [], st => st
  | fuel + 1, (x, y) :: queue, st =>
      if visGet width st.vis x y = false ∧ img.get x y = facetColorIndex then
        let st' := buildFacetOnFill img facetIndex facetColorIndex st x y
        let nbs := (get_neighbors_4 x y width height).map
          (fun p => (p.x, p.y))
        buildFacetLoop img facetIndex facetColorIndex width height fuel
          (queue ++ nbs) st'
      else
        buildFacetLoop img facetIndex facetColorIndex width height fuel
          queue st

/-- `FacetBuilder.build_facet` (`facetbuilder.py` lines 42-130). -/
def build_facet (facetIndex facetColorIndex x y : Nat) (vis : List Bool)
    (img : Uint8Array2D) (fr : RFacetResult) :
    RFacet × List Bool × RFacetResult :=
  let f0 : RFacet :=
    { id := facetIndex, color := facetColorIndex, pointCount := 0,
      borderPoints := [], neighbourFacets := none,
      neighbourFacetsIsDirty := true, bbox := BBoxI.initial }
  let res := buildFacetLoop img facetIndex facetColorIndex fr.width
    fr.height (5 * (fr.width * fr.height + 1)) [(x, y)]
    ⟨f0, vis, fr⟩
  (res.facet, res.vis, res.fr)

/-- Stable insertion of an element into a sorted list: the element goes
before the first entry it may precede, so among key-equal entries the
earlier original element stays first. -/
def insertOrd (le : Nat → Nat → Bool) (a : Nat) : List Nat → List Nat
  | [] => [a]
  | b :: l => if le a b then a :: b :: l else b :: insertOrd le a l

/-- A stable sort (insertion sort), modelling CPython's stable
`list.sort`: any two stable sorts by the same key order agree
pointwise, so the choice of stable algorithm is immaterial. -/
def stableSort (le : Nat → Nat → Bool) : List Nat → List Nat
  | [] => []
  | a :: l => insertOrd le a (stableSort le l)

/-- `d < m` against a possibly-infinite minimum
(`float('inf')` is `none`). -/
def ltInf (d : Nat) : Option Nat → Bool
  | none => true
  | some m => decide (d < m)

/-- `d == m` against a possibly-infinite minimum. -/
def eqInf (d : Nat) : Option Nat → Bool
  | none => false
  | some m => d == m

/-- `FacetReducer._get_closest_neighbour_for_pixel` (`facetreduction.py`
lines 192-245): scan the border points of the live neighbour facets for
the smallest Manhattan distance to `(x, y)`, breaking distance ties by
the smaller palette distance between the removed facet's colour and
the neighbour's colour; `-1` when no neighbour qualifies.  The fold
state is `(closest_neighbour, min_distance, min_color_distance)`.  The
dirty rebuild at entry mirrors the source; at its only call site (the
pixel loop of `_delete_facet`) the facet was already cleaned, so the
in-place update the Python rebuild performs is unobservable here. -/
def get_closest_neighbour_for_pixel (ftr : RFacet) (fr : RFacetResult)
    (x y : Nat) (colors : List RGBc) : Int :=
  let ftr := if ftr.neighbourFacetsIsDirty
    then build_facet_neighbour fr ftr else ftr
  match ftr.neighbourFacets with
  | none => -1
  | some nbs =>
    if nbs = [] then -1
    else
      (nbs.foldl (fun (acc : Int × Option Nat × Option Nat) nIdx =>
        match fr.facets.getD nIdx none with
        | none => acc
        | some nb =>
          nb.borderPoints.foldl
            (fun (acc : Int × Option Nat × Option Nat) bpt =>
              let d := bpt.distance_to_coord x y
              if ltInf d acc.2.1 then (Int.ofNat nIdx, some d, none)
              else if eqInf d acc.2.1 then
                let cd := color_distance_matrix_sq colors ftr.color nb.color
                if ltInf cd acc.2.2 then (Int.ofNat nIdx, acc.2.1, some cd)
                else acc
              else acc) acc) (-1, none, none)).1

/-- The mutable state `reduce_facets` threads: the facet result, the
colour-index image, and the reusable visited cache. -/
structure RedState where
  fr : RFacetResult
  img : Uint8Array2D
  vis : List Bool
deriving DecidableEq, Repr

/-- `FacetReducer._rebuild_changed_neighbour_facets` (`facetreduction.py`
lines 314-383).  Python mutates the removed-facet object in place (the
entry dirty rebuild, and the final mark-dirty loop when its id landed in
the changed set); the object lives in its own facet slot, so those
mutations are mirrored into the slot and the updated object is returned
alongside the state for the caller's later reads.  The changed set of
small ints is modelled as an insertion-ordered duplicate-free list; the
mark-dirty loop updates pairwise distinct slots independently, so the
set's iteration order is immaterial. -/
def rebuild_changed_neighbour_facets (f0 : RFacet) (st0 : RedState) :
    RedState × RFacet :=
  let f := if f0.neighbourFacetsIsDirty
    then build_facet_neighbour st0.fr f0 else f0
  let st := if f0.neighbourFacetsIsDirty
    then { st0 with fr := setFacet st0.fr f.id (some f) } else st0
  match f.neighbourFacets with
  | none => (st, f)
  | some nbs =>
    if nbs = [] then (st, f)
    else
      let step := fun (acc : RedState × List Nat) (nIdx : Nat) =>
        match acc.1.fr.facets.getD nIdx none with
        | none => acc
        | some nb0 =>
          let st := acc.1
          let changed := insertUniq acc.2 nIdx
          let nb := if nb0.neighbourFacetsIsDirty
            then build_facet_neighbour st.fr nb0 else nb0
          let st := if nb0.neighbourFacetsIsDirty
            then { st with fr := setFacet st.fr nIdx (some nb) } else st
          let changed :=
            match nb.neighbourFacets with
            | some ns => ns.foldl insertUniq changed
            | none => changed
          if nb.borderPoints = [] then (st, changed)
          else
            let hd := nb.borderPoints.headD ⟨0, 0⟩
            let res := build_facet nIdx nb.color hd.x hd.y st.vis st.img
              st.fr
            let st := { st with vis := res.2.1,
                                fr := setFacet res.2.2 nIdx (some res.1) }
            let st := if res.1.pointCount = 0
              then { st with fr := setFacet st.fr nIdx none } else st
            (st, changed)
      let sc := nbs.foldl step (st, [])
      let st2 := nbs.foldl (fun st nIdx =>
        match st.fr.facets.getD nIdx none with
        | none => st
        | some nb =>
          let v2 := (bboxCoords nb.bbox).foldl
            (fun v (p : Nat × Nat) =>
              if fmGet st.fr p.1 p.2 = nb.id
              then visSet st.fr.width v p.1 p.2 false else v) st.vis
          { st with vis := v2 })
        sc.1
      let st3 := sc.2.foldl (fun st k =>
        match st.fr.facets.getD k none with
        | none => st
        | some fk =>
          let fk' :=
            { fk with
              neighbourFacets := none
              neighbourFacetsIsDirty := true }
          { st with fr := setFacet st.fr k (some fk') }) st2
      let fOut := if f.id ∈ sc.2
        then
          { f with
            neighbourFacets := none
            neighbourFacetsIsDirty := true }
        else f
      (st3, fOut)

/-- The elif chain of the sanity scan of `_rebuild_for_facet_change`
(lines 276-303): the colour of the first direct neighbour (left, top,
right, bottom) that is in bounds, belongs to a different facet id, and
whose facet slot is live; `none` when no branch fires. -/
def sanityColor (fr : RFacetResult) (fid x y : Nat) : Option Nat :=
  let tryAt := fun (nx ny : Nat) =>
    let nid := fmGet fr nx ny
    if nid ≠ fid
    then (fr.facets.getD nid none).map (fun nb => nb.color) else none
  (if 0 < x then tryAt (x - 1) y else none) <|>
  (if 0 < y then tryAt x (y - 1) else none) <|>
  (if x + 1 < fr.width then tryAt (x + 1) y else none) <|>
  (if y + 1 < fr.height then tryAt x (y + 1) else none)

/-- `FacetReducer._rebuild_for_facet_change` (`facetreduction.py` lines
247-312): rebuild the changed neighbours, then scan the removed facet's
bounding box; any pixel still mapped to the removed id sets the rebuild
flag and is recoloured from the first qualifying direct neighbour, and
a second neighbour rebuild runs when the flag was set.  The scan writes
only the image, so folding it over `(image, flag)` is exact. -/
def rebuild_for_facet_change (f0 : RFacet) (st0 : RedState) : RedState :=
  let r1 := rebuild_changed_neighbour_facets f0 st0
  let st := r1.1
  let f := r1.2
  let scan := (bboxCoords f.bbox).foldl
    (fun (acc : Uint8Array2D × Bool) (p : Nat × Nat) =>
      if fmGet st.fr p.1 p.2 = f.id then
        (match sanityColor st.fr f.id p.1 p.2 with
         | some c => acc.1.set p.1 p.2 c
         | none => acc.1, true)
      else acc) (st.img, false)
  let st1 := { st with img := scan.1 }
  if scan.2 then (rebuild_changed_neighbour_facets f st1).1 else st1

/-- `FacetReducer._delete_facet` (`facetreduction.py` lines 132-190):
early return on an already-vacated slot; clean the neighbour list
(mirrored into the facet's slot, where the Python object lives);
reassign every bounding-box pixel still mapped to the facet to the
colour of its closest live neighbour when the neighbour list is
non-empty; rebuild the affected neighbours; and finally vacate the
facet's slot.  The inner `none` arm of the colour lookup is
unreachable: the scan returns an index only after reading a live
slot, and the pixel loop never writes a facet slot. -/
def delete_facet (fid : Nat) (colors : List RGBc) (st : RedState) :
    RedState :=
  match st.fr.facets.getD fid none with
  | none => st
  | some f0 =>
    let f := if f0.neighbourFacetsIsDirty
      then build_facet_neighbour st.fr f0 else f0
    let fr1 := if f0.neighbourFacetsIsDirty
      then setFacet st.fr fid (some f) else st.fr
    let img1 :=
      match f.neighbourFacets with
      | none => st.img
      | some nbs =>
        if nbs = [] then st.img
        else
          (bboxCoords f.bbox).foldl (fun img (p : Nat × Nat) =>
            if fmGet fr1 p.1 p.2 = f.id then
              let cn := get_closest_neighbour_for_pixel f fr1 p.1 p.2
                colors
              if cn = -1 then img
              else
                match fr1.facets.getD cn.toNat none with
                | some nb => img.set p.1 p.2 nb.color
                | none => img
            else img) st.img
    let st2 := rebuild_for_facet_change f ⟨fr1, img1, st.vis⟩
    { st2 with fr := setFacet st2.fr f.id none }

/-- One iteration of the first pass of `reduce_facets` (lines 80-89):
re-read the facet slot, and delete the facet when it is still live and
its point count — at this moment, not at entry — is below the
threshold. -/
def first_pass_step (colors : List RGBc) (smaller_than : Nat)
    (st : RedState) (fidx : Nat) : RedState :=
  match st.fr.facets.getD fidx none with
  | none => st
  | some f =>
    if f.pointCount < smaller_than then delete_facet f.id colors st
    else st

/-- `sum(1 for f in facets if f is not None)`. -/
def facetCount (fr : RFacetResult) : Nat :=
  (fr.facets.filter (fun o => o.isSome)).length

/-- `[f.id for f in facet_result.facets if f is not None]`. -/
def liveIds (fr : RFacetResult) : List Nat :=
  fr.facets.filterMap (fun o => o.map (fun f => f.id))

/-- The sort key `facet_result.facets[fid].pointCount` (the key is only
evaluated at live ids, so the default is immaterial). -/
def sortKey (fr : RFacetResult) (fid : Nat) : Nat :=
  match fr.facets.getD fid none with
  | some f => f.pointCount
  | none => 0

/-- The second pass of `reduce_facets` (lines 100-120): while the live
count exceeds the cap, re-sort the live ids ascending by current point
count (stable) and delete the first.  Each iteration vacates the
victim's slot and no step revives a slot, so the count strictly
decreases and `facets.length + 1` fuel is never exhausted. -/
def second_pass_loop (colors : List RGBc) (maxFacets : Nat) :
    Nat → RedState → RedState
  | 0, st => st
  | fuel + 1, st =>
    if facetCount st.fr > maxFacets then
      let order := stableSort
        (fun a b => decide (sortKey st.fr a ≤ sortKey st.fr b))
        (liveIds st.fr)
      let st1 :=
        match st.fr.facets.getD (order.headD 0) none with
        | some f => delete_facet f.id colors st
        | none => st
      second_pass_loop colors maxFacets fuel st1
    else st

/-- `FacetReducer.reduce_facets` (`facetreduction.py` lines 25-130):
fresh visited cache, live ids sorted descending by point count (stable,
as CPython's `sort(reverse=True)`), reversed when not removing large to
small; first pass over that order, then the capped second pass. -/
def reduce_facets (smaller_than : Nat)
    (remove_facets_from_large_to_small : Bool)
    (maximum_number_of_facets : Option Nat) (colors_by_index : List RGBc)
    (fr : RFacetResult) (img : Uint8Array2D) : RedState :=
  let vis := List.replicate (fr.width * fr.height) false
  let order0 := stableSort
    (fun a b => decide (sortKey fr b ≤ sortKey fr a)) (liveIds fr)
  let order := if remove_facets_from_large_to_small then order0
    else order0.reverse
  let st1 := order.foldl (first_pass_step colors_by_index smaller_than)
    ⟨fr, img, vis⟩
  match maximum_number_of_facets with
  | none => st1
  | some m =>
    second_pass_loop colors_by_index m (st1.fr.facets.length + 1) st1

/-- Vacating a slot makes the read at that index `none`, whether or not
the index is in range (out of range, `getD` falls back to the
default). -/
theorem setFacet_getD_none (fr : RFacetResult) (i : Nat) :
    (setFacet fr i none).facets.getD i none = none := by
  unfold setFacet
  rw [getD_set_list]
  by_cases h : i < fr.facets.length
  · rw [if_pos ⟨rfl, h⟩]
  · rw [if_neg (fun hc => h hc.2)]
    exact List.getD_eq_default _ _ (by omega)

/-- The neighbour rebuild only replaces the neighbour list and dirty
flag. -/
theorem build_facet_neighbour_id (fr : RFacetResult) (f : RFacet) :
    (build_facet_neighbour fr f).id = f.id := rfl

/-- `_delete_facet` on a live slot always ends by vacating it: the
assignment `facet_result.facets[facet_to_remove.id] = None` is the
function's last write, after every rebuild. -/
theorem delete_facet_getD_none (fid : Nat) (colors : List RGBc)
    (st : RedState) (f : RFacet)
    (hf : st.fr.facets.getD fid none = some f) (hid : f.id = fid) :
    (delete_facet fid colors st).fr.facets.getD fid none = none := by
  unfold delete_facet
  split
  · next heq =>
    rw [hf] at heq
    exact Option.noConfusion heq
  · next f0 heq =>
    rw [hf] at heq
    injection heq with h
    subst h
    have hid2 : (if f.neighbourFacetsIsDirty = true
        then build_facet_neighbour st.fr f else f).id = fid := by
      by_cases hd : f.neighbourFacetsIsDirty = true
      · rw [if_pos hd, build_facet_neighbour_id, hid]
      · rw [if_neg hd, hid]
    dsimp only
    rw [hid2]
    exact setFacet_getD_none _ _

/-- A 1 x 1 image whose single facet has one point. -/
def fr11 : RFacetResult :=
  ⟨1, 1, [0], [some ⟨0, 0, 1, [⟨0, 0⟩], none, true, ⟨0, 0, 0, 0⟩⟩]⟩

/-- The matching colour-index image. -/
def img11 : Uint8Array2D := ⟨1, 1, [0]⟩

/-- Its one-colour palette. -/
def colors11 : List RGBc := [(0, 0, 0)]

/-- C1: the claim promises that after `reduce_facets` every pixel is
mapped to exactly one surviving facet, even when all of a victim's
neighbours are removed in the same run.  Refuted on a 1 x 1 image with
a single one-point facet and threshold 2: the facet is below the
threshold and has no neighbours, so `_delete_facet` reassigns nothing,
the sanity pass finds no live direct neighbour either, and the facet
slot is vacated anyway — the run ends with no surviving facets while
the facet map still sends pixel (0, 0) to the vacated slot 0. -/
theorem C1_reduce_eval :
    (reduce_facets 2 true none colors11 fr11 img11).fr.facets = [none] ∧
    fmGet (reduce_facets 2 true none colors11 fr11 img11).fr 0 0 = 0 ∧
    (reduce_facets 2 true none colors11 fr11 img11).fr.facets.getD
      (fmGet (reduce_facets 2 true none colors11 fr11 img11).fr 0 0)
      none = none := by decide

/-- A 3 x 1 image: facet 0 (colour 0) owns pixel (0, 0), facet 1
(colour 1) owns pixels (1, 0) and (2, 0). -/
def f0w : RFacet := ⟨0, 0, 1, [⟨0, 0⟩], none, true, ⟨0, 0, 0, 0⟩⟩

/-- The two-point facet of the 3 x 1 image. -/
def f1w : RFacet := ⟨1, 1, 2, [⟨1, 0⟩, ⟨2, 0⟩], none, true, ⟨1, 0, 2, 0⟩⟩

/-- The 3 x 1 facet result. -/
def fr13 : RFacetResult := ⟨3, 1, [0, 1, 1], [some f0w, some f1w]⟩

/-- The matching colour-index image. -/
def img13 : Uint8Array2D := ⟨3, 1, [0, 1, 1]⟩

/-- Its two-colour palette. -/
def colors13 : List RGBc := [(0, 0, 0), (255, 0, 0)]

/-- C2 counterexample: with threshold 3, both facets of the 3 x 1 image
are below the threshold at entry (point counts 1 and 2), so under the
claim both are doomed; but the larger facet 1 is processed first, its
two pixels are recoloured to facet 0's colour, the neighbour rebuild
floods facet 0 across the whole row (point count 3), and when facet 0's
turn comes it no longer tests below the threshold — it survives the
run, ending with point count 3. -/
theorem C2_counterexample :
    fr13.facets.getD 0 none = some f0w ∧ f0w.pointCount < 3 ∧
    (reduce_facets 3 true none colors13 fr13 img13).fr.facets.getD 0
      none ≠ none ∧
    ((reduce_facets 3 true none colors13 fr13 img13).fr.facets.getD 0
      none).map (fun f => f.pointCount) = some 3 := by decide

/-- C2 (amended): the victim set is not fixed at entry.  The first pass
tests each facet against the threshold with its point count at the
moment its turn comes: a facet whose current count has reached the
threshold is left untouched (the whole state is unchanged), and a facet
still below it has its slot vacated by `_delete_facet`. -/
theorem C2_amended (colors : List RGBc) (smaller_than fidx : Nat)
    (st : RedState) (f : RFacet)
    (hf : st.fr.facets.getD fidx none = some f) (hid : f.id = fidx) :
    (smaller_than ≤ f.pointCount →
      first_pass_step colors smaller_than st fidx = st) ∧
    (f.pointCount < smaller_than →
      (first_pass_step colors smaller_than st fidx).fr.facets.getD fidx
        none = none) := by
  subst hid
  constructor
  · intro hge
    unfold first_pass_step
    rw [hf]
    exact if_neg (by omega)
  · intro hlt
    unfold first_pass_step
    rw [hf]
    show (if f.pointCount < smaller_than then delete_facet f.id colors st
      else st).fr.facets.getD f.id none = none
    rw [if_pos hlt]
    exact delete_facet_getD_none f.id colors st f hf rfl

/-- Python 3 `round` (banker's rounding, half to even) on a
rational. -/
def pyRoundQ (x : ℚ) : ℤ :=
  if x - ⌊x⌋ < 1/2 then ⌊x⌋
  else if 1/2 < x - ⌊x⌋ then ⌊x⌋ + 1
  else if Even ⌊x⌋ then ⌊x⌋ else ⌊x⌋ + 1

/-- The body of `rgb_to_hsl` (`utils/color.py` lines 47-69) on the
already-normalised channels: lightness is the mid-range, grey when max
equals min, otherwise saturation and the piecewise hue, divided
by 6. -/
def rgb_to_hsl_core (rn gn bn : ℚ) : ℚ × ℚ × ℚ :=
  let maxv := max rn (max gn bn)
  let minv := min rn (min gn bn)
  let l := (maxv + minv) / 2
  if maxv = minv then (0, 0, l)
  else
    let d := maxv - minv
    let s := if l > 1/2 then d / (2 - maxv - minv) else d / (maxv + minv)
    let h :=
      if maxv = rn then (gn - bn) / d + (if gn < bn then (6 : ℚ) else 0)
      else if maxv = gn then (bn - rn) / d + 2
      else (rn - gn) / d + 4
    (h / 6, s, l)

/-- `rgb_to_hsl` (`utils/color.py` lines 22-69): normalise the
channels to `[0, 1]` and apply the body.  The Python floats are
modelled exactly over `ℚ` (every operation here is field arithmetic
and comparison). -/
def rgb_to_hsl (r g b : Nat) : ℚ × ℚ × ℚ :=
  rgb_to_hsl_core (r / 255) (g / 255) (b / 255)

/-- The `hue2rgb` helper of `hsl_to_rgb` (lines 96-108): shift the hue
into `[0, 1]`, then the four-piece linear ramp. -/
def hue2rgb (p q t0 : ℚ) : ℚ :=
  let t1 := if t0 < 0 then t0 + 1 else t0
  let t := if t1 > 1 then t1 - 1 else t1
  if t < 1/6 then p + (q - p) * 6 * t
  else if t < 1/2 then q
  else if t < 2/3 then p + (q - p) * (2/3 - t) * 6
  else p

/-- The fractional channels of `hsl_to_rgb` (`utils/color.py` lines
92-115): grey when saturation is zero, otherwise the `hue2rgb` ramp at
the three hue offsets. -/
def hsl_to_rgb_frac (h s l : ℚ) : ℚ × ℚ × ℚ :=
  if s = 0 then (l, l, l)
  else
    let q := if l < 1/2 then l * (1 + s) else l + s - l * s
    let p := 2 * l - q
    (hue2rgb p q (h + 1/3), hue2rgb p q h, hue2rgb p q (h - 1/3))

/-- `hsl_to_rgb` (`utils/color.py` lines 72-121): the fractional
channels scaled back to `0..255` and rounded with Python's `round`. -/
def hsl_to_rgb (h s l : ℚ) : ℤ × ℤ × ℤ :=
  let c := hsl_to_rgb_frac h s l
  (pyRoundQ (c.1 * 255), pyRoundQ (c.2.1 * 255), pyRoundQ (c.2.2 * 255))

/-- The HSL round trip of the claim. -/
def hslRoundTrip (r g b : Nat) : ℤ × ℤ × ℤ :=
  let hsl := rgb_to_hsl r g b
  hsl_to_rgb hsl.1 hsl.2.1 hsl.2.2

/-- Python 3 `round` on a real. -/
noncomputable def pyRoundR (x : ℝ) : ℤ :=
  if x - ⌊x⌋ < 1/2 then ⌊x⌋
  else if 1/2 < x - ⌊x⌋ then ⌊x⌋ + 1
  else if Even ⌊x⌋ then ⌊x⌋ else ⌊x⌋ + 1

/-- The sRGB gamma expansion of `rgb_to_lab` (lines 151-153), exactly
over `ℝ` with the real power `2.4`. -/
noncomputable def srgbGamma (c : ℝ) : ℝ :=
  if c > 0.04045 then ((c + 0.055) / 1.055) ^ (2.4 : ℝ) else c / 12.92

/-- The LAB forward transfer function (lines 161-163): cube root above
the threshold, linear below. -/
noncomputable def labF (t : ℝ) : ℝ :=
  if t > 0.008856 then t ^ ((1 : ℝ) / 3) else 7.787 * t + 16 / 116

/-- `rgb_to_lab` (`utils/color.py` lines 124-169): gamma-expand,
convert to XYZ with the D65 matrix, apply the transfer function, and
combine into `(L*, a*, b*)`. -/
noncomputable def rgb_to_lab (r g b : Nat) : ℝ × ℝ × ℝ :=
  let rn : ℝ := r / 255
  let gn : ℝ := g / 255
  let bn : ℝ := b / 255
  let rl := srgbGamma rn
  let gl := srgbGamma gn
  let bl := srgbGamma bn
  let x := (rl * 0.4124 + gl * 0.3576 + bl * 0.1805) / 0.95047
  let y := (rl * 0.2126 + gl * 0.7152 + bl * 0.0722) / 1.00000
  let z := (rl * 0.0193 + gl * 0.1192 + bl * 0.9505) / 1.08883
  let fx := labF x
  let fy := labF y
  let fz := labF z
  (116 * fy - 16, 500 * (fx - fy), 200 * (fy - fz))

/-- `lab_to_rgb` (`utils/color.py` lines 172-215): invert the transfer
function, convert back with the hard-coded (approximate) inverse
matrix, gamma-compress, clamp to `[0, 1]` and round to `0..255`.  The
guards keep every real power at a positive base, as in the source
(`math.pow` would raise on a negative base). -/
noncomputable def lab_to_rgb (l a b : ℝ) : ℤ × ℤ × ℤ :=
  let y0 := (l + 16) / 116
  let x0 := a / 500 + y0
  let z0 := y0 - b / 200
  let x := 0.95047 *
    (if x0 * x0 * x0 > 0.008856 then x0 ^ (3 : Nat)
     else (x0 - 16 / 116) / 7.787)
  let y := 1.00000 *
    (if y0 * y0 * y0 > 0.008856 then y0 ^ (3 : Nat)
     else (y0 - 16 / 116) / 7.787)
  let z := 1.08883 *
    (if z0 * z0 * z0 > 0.008856 then z0 ^ (3 : Nat)
     else (z0 - 16 / 116) / 7.787)
  let rl := x * 3.2406 + y * (-1.5372) + z * (-0.4986)
  let gl := x * (-0.9689) + y * 1.8758 + z * 0.0415
  let bl := x * 0.0557 + y * (-0.2040) + z * 1.0570
  let rc := if rl > 0.0031308
    then 1.055 * rl ^ ((1 : ℝ) / 2.4) - 0.055 else 12.92 * rl
  let gc := if gl > 0.0031308
    then 1.055 * gl ^ ((1 : ℝ) / 2.4) - 0.055 else 12.92 * gl
  let bc := if bl > 0.0031308
    then 1.055 * bl ^ ((1 : ℝ) / 2.4) - 0.055 else 12.92 * bl
  (pyRoundR (max 0 (min 1 rc) * 255),
   pyRoundR (max 0 (min 1 gc) * 255),
   pyRoundR (max 0 (min 1 bc) * 255))

/-- The LAB round trip of the claim. -/
noncomputable def labRoundTrip (r g b : Nat) : ℤ × ℤ × ℤ :=
  let lab := rgb_to_lab r g b
  lab_to_rgb lab.1 lab.2.1 lab.2.2

/-- A round trip stays within `tol` of the original on every channel,
for every RGB triple. -/
def roundTripWithin (f : Nat → Nat → Nat → ℤ × ℤ × ℤ) (tol : ℤ) : Prop :=
  ∀ r g b : Nat, r ≤ 255 → g ≤ 255 → b ≤ 255 →
    |(f r g b).1 - r| ≤ tol ∧ |(f r g b).2.1 - g| ≤ tol ∧
      |(f r g b).2.2 - b| ≤ tol

/-- The property claimed of the colour conversions: both round trips
stay within 3 per channel. -/
def color_roundtrips_within_three : Prop :=
  roundTripWithin hslRoundTrip 3 ∧ roundTripWithin labRoundTrip 3

/-- `hue2rgb` on the first sixth of the ramp: the rising edge. -/
theorem hue2rgb_low (p q t : ℚ) (h0 : 0 ≤ t) (h1 : t ≤ 1/6) :
    hue2rgb p q t = p + (q - p) * 6 * t := by
  unfold hue2rgb
  rw [if_neg (by linarith : ¬ t < 0)]
  dsimp only
  rw [if_neg (by linarith : ¬ t > 1)]
  by_cases ht : t < 1/6
  · rw [if_pos ht]
  · have heq : t = 1/6 := le_antisymm h1 (not_lt.mp ht)
    rw [if_neg ht, if_pos (by rw [heq]; norm_num), heq]
    ring

/-- `hue2rgb` between one sixth and one half: the plateau at `q`. -/
theorem hue2rgb_q (p q t : ℚ) (h0 : 1/6 ≤ t) (h1 : t ≤ 1/2) :
    hue2rgb p q t = q := by
  unfold hue2rgb
  rw [if_neg (by linarith : ¬ t < 0)]
  dsimp only
  rw [if_neg (by linarith : ¬ t > 1)]
  by_cases ht : t < 1/2
  · rw [if_neg (by linarith : ¬ t < 1/6), if_pos ht]
  · have heq : t = 1/2 := le_antisymm h1 (not_lt.mp ht)
    rw [if_neg (by rw [heq]; norm_num : ¬ t < 1/6), if_neg ht,
      if_pos (by rw [heq]; norm_num), heq]
    ring

/-- `hue2rgb` between one half and two thirds: the falling edge. -/
theorem hue2rgb_mid (p q t : ℚ) (h0 : 1/2 ≤ t) (h1 : t ≤ 2/3) :
    hue2rgb p q t = p + (q - p) * (2/3 - t) * 6 := by
  unfold hue2rgb
  rw [if_neg (by linarith : ¬ t < 0)]
  dsimp only
  rw [if_neg (by linarith : ¬ t > 1)]
  by_cases ht : t < 2/3
  · rw [if_neg (by linarith : ¬ t < 1/6), if_neg (by linarith : ¬ t < 1/2),
      if_pos ht]
  · have heq : t = 2/3 := le_antisymm h1 (not_lt.mp ht)
    rw [if_neg (by rw [heq]; norm_num : ¬ t < 1/6),
      if_neg (by rw [heq]; norm_num : ¬ t < 1/2), if_neg ht, heq]
    ring

/-- `hue2rgb` between two thirds and one: the floor at `p`. -/
theorem hue2rgb_p (p q t : ℚ) (h0 : 2/3 ≤ t) (h1 : t ≤ 1) :
    hue2rgb p q t = p := by
  unfold hue2rgb
  rw [if_neg (by linarith : ¬ t < 0)]
  dsimp only
  rw [if_neg (by linarith : ¬ t > 1)]
  rw [if_neg (by linarith : ¬ t < 1/6), if_neg (by linarith : ¬ t < 1/2),
    if_neg (by linarith : ¬ t < 2/3)]

/-- `hue2rgb` just above one: wrapped onto the rising edge. -/
theorem hue2rgb_shift_low (p q t : ℚ) (h0 : 1 ≤ t) (h1 : t ≤ 7/6) :
    hue2rgb p q t = p + (q - p) * 6 * (t - 1) := by
  unfold hue2rgb
  rw [if_neg (by linarith : ¬ t < 0)]
  dsimp only
  by_cases hgt : t > 1
  · rw [if_pos hgt]
    by_cases ht : t - 1 < 1/6
    · rw [if_pos ht]
    · have heq : t = 7/6 := by
        have := not_lt.mp ht
        linarith
      rw [if_neg ht, if_pos (by rw [heq]; norm_num), heq]
      ring
  · have heq : t = 1 := le_antisymm (not_lt.mp hgt) h0
    rw [if_neg hgt, if_neg (by rw [heq]; norm_num : ¬ t < 1/6),
      if_neg (by rw [heq]; norm_num : ¬ t < 1/2),
      if_neg (by rw [heq]; norm_num : ¬ t < 2/3), heq]
    ring

/-- `hue2rgb` above seven sixths: wrapped onto the plateau. -/
theorem hue2rgb_shift_q (p q t : ℚ) (h0 : 7/6 ≤ t) (h1 : t ≤ 3/2) :
    hue2rgb p q t = q := by
  unfold hue2rgb
  rw [if_neg (by linarith : ¬ t < 0)]
  dsimp only
  rw [if_pos (by linarith : t > 1)]
  by_cases ht : t - 1 < 1/2
  · rw [if_neg (by linarith : ¬ t - 1 < 1/6), if_pos ht]
  · have heq : t = 3/2 := by
      have := not_lt.mp ht
      linarith
    rw [if_neg (by rw [heq]; norm_num : ¬ t - 1 < 1/6), if_neg ht,
      if_pos (by rw [heq]; norm_num), heq]
    ring

/-- `hue2rgb` in `[-1/3, 0]`: wrapped onto the floor at `p`. -/
theorem hue2rgb_neg_p (p q t : ℚ) (h0 : -1/3 ≤ t) (h1 : t ≤ 0) :
    hue2rgb p q t = p := by
  unfold hue2rgb
  by_cases hneg : t < 0
  · rw [if_pos hneg]
    dsimp only
    rw [if_neg (by linarith : ¬ t + 1 > 1)]
    rw [if_neg (by linarith : ¬ t + 1 < 1/6),
      if_neg (by linarith : ¬ t + 1 < 1/2),
      if_neg (by linarith : ¬ t + 1 < 2/3)]
  · have heq : t = 0 := le_antisymm h1 (not_lt.mp hneg)
    rw [if_neg hneg]
    dsimp only
    rw [if_neg (by rw [heq]; norm_num : ¬ t > 1),
      if_pos (by rw [heq]; norm_num : t < 1/6), heq]
    ring



/-- In exact rational arithmetic the HSL conversion inverts exactly: on
normalised channels in `[0, 1]`, feeding `rgb_to_hsl_core` into the
fractional `hsl_to_rgb` returns the original channels.  The proof runs
the grey case and the six max/min orderings of the hue wheel
separately. -/
theorem hsl_core_roundtrip (rn gn bn : ℚ)
    (h0r : 0 ≤ rn) (h1r : rn ≤ 1) (h0g : 0 ≤ gn) (h1g : gn ≤ 1)
    (h0b : 0 ≤ bn) (h1b : bn ≤ 1) :
    hsl_to_rgb_frac (rgb_to_hsl_core rn gn bn).1
      (rgb_to_hsl_core rn gn bn).2.1 (rgb_to_hsl_core rn gn bn).2.2
      = (rn, gn, bn) := by
  unfold rgb_to_hsl_core
  dsimp only
  have hrle : rn ≤ max rn (max gn bn) := le_max_left _ _
  have hgle : gn ≤ max rn (max gn bn) :=
    le_trans (le_max_left _ _) (le_max_right _ _)
  have hble : bn ≤ max rn (max gn bn) :=
    le_trans (le_max_right _ _) (le_max_right _ _)
  have hrge : min rn (min gn bn) ≤ rn := min_le_left _ _
  have hgge : min rn (min gn bn) ≤ gn :=
    le_trans (min_le_right _ _) (min_le_left _ _)
  have hbge : min rn (min gn bn) ≤ bn :=
    le_trans (min_le_right _ _) (min_le_right _ _)
  by_cases hgray : max rn (max gn bn) = min rn (min gn bn)
  · rw [if_pos hgray]
    dsimp only
    unfold hsl_to_rgb_frac
    rw [if_pos rfl]
    rw [Prod.mk.injEq, Prod.mk.injEq]
    exact ⟨by linarith, by linarith, by linarith⟩
  · rw [if_neg hgray]
    dsimp only
    have hminmax : min rn (min gn bn) ≤ max rn (max gn bn) :=
      le_trans (min_le_left _ _) (le_max_left _ _)
    have hlt : min rn (min gn bn) < max rn (max gn bn) :=
      lt_of_le_of_ne hminmax (fun h => hgray h.symm)
    have hM1 : max rn (max gn bn) ≤ 1 := max_le h1r (max_le h1g h1b)
    have hm0 : 0 ≤ min rn (min gn bn) := le_min h0r (le_min h0g h0b)
    set M := max rn (max gn bn) with hMdef
    set m := min rn (min gn bn) with hmdef
    have hSpos : 0 < (if (M + m)/2 > 1/2
        then (M - m)/(2 - M - m) else (M - m)/(M + m)) := by
      by_cases hl : (M + m)/2 > 1/2
      · rw [if_pos hl]
        exact div_pos (by linarith) (by linarith)
      · rw [if_neg hl]
        exact div_pos (by linarith) (by linarith)
    have hSne : (if (M + m)/2 > 1/2
        then (M - m)/(2 - M - m) else (M - m)/(M + m)) ≠ 0 :=
      ne_of_gt hSpos
    unfold hsl_to_rgb_frac
    rw [if_neg hSne]
    dsimp only
    have hQ : (if (M + m)/2 < 1/2
        then (M + m)/2 * (1 + (if (M + m)/2 > 1/2
          then (M - m)/(2 - M - m) else (M - m)/(M + m)))
        else (M + m)/2 + (if (M + m)/2 > 1/2
          then (M - m)/(2 - M - m) else (M - m)/(M + m))
          - (M + m)/2 * (if (M + m)/2 > 1/2
          then (M - m)/(2 - M - m) else (M - m)/(M + m))) = M := by
      rcases lt_trichotomy ((M + m)/2) (1/2) with hl | hl | hl
      · rw [if_pos hl, if_neg (by linarith : ¬ (M + m)/2 > 1/2)]
        have hMm : M + m ≠ 0 := by
          have : 0 < M + m := by linarith
          exact ne_of_gt this
        field_simp
        ring
      · rw [if_neg (by linarith : ¬ (M + m)/2 < 1/2),
          if_neg (by linarith : ¬ (M + m)/2 > 1/2)]
        have h1 : M + m = 1 := by linarith
        rw [h1]
        norm_num
        linarith
      · rw [if_neg (by linarith : ¬ (M + m)/2 < 1/2), if_pos hl]
        have h2 : (2 : ℚ) - M - m ≠ 0 := by
          have : 0 < 2 - M - m := by linarith
          exact ne_of_gt this
        field_simp
        ring
    rw [hQ]
    have hP : 2 * ((M + m)/2) - M = m := by ring
    rw [hP]
    rw [Prod.mk.injEq, Prod.mk.injEq]
    by_cases h1c : M = rn
    · have hgr : gn ≤ rn := le_trans hgle (le_of_eq h1c)
      have hbr : bn ≤ rn := le_trans hble (le_of_eq h1c)
      rw [if_pos h1c]
      by_cases hgb : gn < bn
      · -- max is r, g < b: hue in [5/6, 1)
        rw [if_pos hgb]
        have hm : m = gn := by
          rw [hmdef, min_eq_left (le_of_lt hgb),
            min_eq_right (le_trans (le_of_lt hgb) hbr)]
        rw [h1c, hm]
        have hd : (0:ℚ) < rn - gn := by linarith
        have hdne : rn - gn ≠ 0 := ne_of_gt hd
        have hx0 : (gn - bn)/(rn - gn) < 0 :=
          div_neg_of_neg_of_pos (by linarith) hd
        have hx1 : -1 ≤ (gn - bn)/(rn - gn) := by
          rw [le_div_iff₀ hd]
          linarith
        refine ⟨?_, ?_, ?_⟩
        · rw [hue2rgb_shift_q] <;> linarith
        · rw [hue2rgb_p] <;> linarith
        · rw [hue2rgb_mid]
          · field_simp
            ring
          · linarith
          · linarith
      · -- max is r, b <= g: hue in [0, 1/6]
        rw [if_neg hgb]
        have hbg : bn ≤ gn := not_lt.mp hgb
        have hm : m = bn := by
          rw [hmdef, min_eq_right hbg, min_eq_right hbr]
        rw [h1c, hm]
        have hd : (0:ℚ) < rn - bn := by linarith
        have hdne : rn - bn ≠ 0 := ne_of_gt hd
        have hx0 : 0 ≤ (gn - bn)/(rn - bn) :=
          div_nonneg (by linarith) (le_of_lt hd)
        have hx1 : (gn - bn)/(rn - bn) ≤ 1 := by
          rw [div_le_one hd]
          linarith
        refine ⟨?_, ?_, ?_⟩
        · rw [hue2rgb_q] <;> linarith
        · rw [hue2rgb_low]
          · field_simp
          · linarith
          · linarith
        · rw [hue2rgb_neg_p] <;> linarith
    · rw [if_neg h1c]
      have hrM : rn < M := lt_of_le_of_ne hrle (fun h => h1c h.symm)
      by_cases h2c : M = gn
      · have hbg : bn ≤ gn := le_trans hble (le_of_eq h2c)
        rw [if_pos h2c]
        by_cases hbr2 : bn ≤ rn
        · -- max is g, min is b: hue in [1/6, 1/3]
          have hm : m = bn := by
            rw [hmdef, min_eq_right hbg, min_eq_right hbr2]
          rw [h2c, hm]
          have hd : (0:ℚ) < gn - bn := by linarith
          have hdne : gn - bn ≠ 0 := ne_of_gt hd
          have hx0 : (bn - rn)/(gn - bn) ≤ 0 :=
            div_nonpos_of_nonpos_of_nonneg (by linarith) (le_of_lt hd)
          have hx1 : -1 ≤ (bn - rn)/(gn - bn) := by
            rw [le_div_iff₀ hd]
            linarith
          refine ⟨?_, ?_, ?_⟩
          · rw [hue2rgb_mid]
            · field_simp
              ring
            · linarith
            · linarith
          · rw [hue2rgb_q] <;> linarith
          · rw [hue2rgb_neg_p] <;> linarith
        · -- max is g, min is r: hue in (1/3, 1/2]
          have hrb : rn < bn := not_le.mp hbr2
          have hm : m = rn := by
            rw [hmdef, min_eq_right hbg, min_eq_left (le_of_lt hrb)]
          rw [h2c, hm]
          have hd : (0:ℚ) < gn - rn := by linarith
          have hdne : gn - rn ≠ 0 := ne_of_gt hd
          have hx0 : 0 < (bn - rn)/(gn - rn) :=
            div_pos (by linarith) hd
          have hx1 : (bn - rn)/(gn - rn) ≤ 1 := by
            rw [div_le_one hd]
            linarith
          refine ⟨?_, ?_, ?_⟩
          · rw [hue2rgb_p] <;> linarith
          · rw [hue2rgb_q] <;> linarith
          · rw [hue2rgb_low]
            · field_simp
              ring
            · linarith
            · linarith
      · rw [if_neg h2c]
        have hgM : gn < M := lt_of_le_of_ne hgle (fun h => h2c h.symm)
        have hMb : M = bn := by
          rcases max_choice rn (max gn bn) with h | h
          · exact absurd (hMdef.trans h) h1c
          · rcases max_choice gn bn with h2 | h2
            · exact absurd (hMdef.trans (h.trans h2)) h2c
            · exact hMdef.trans (h.trans h2)
        by_cases hgr2 : gn ≤ rn
        · -- max is b, min is g: hue in [2/3, 5/6)
          have hgb2 : gn ≤ bn := le_trans hgle (le_of_eq hMb)
          have hm : m = gn := by
            rw [hmdef, min_eq_left hgb2, min_eq_right hgr2]
          rw [hMb, hm]
          have hd : (0:ℚ) < bn - gn := by linarith [hMb ▸ hgM]
          have hdne : bn - gn ≠ 0 := ne_of_gt hd
          have hrb2 : rn < bn := hMb ▸ hrM
          have hx0 : 0 ≤ (rn - gn)/(bn - gn) :=
            div_nonneg (by linarith) (le_of_lt hd)
          have hx1 : (rn - gn)/(bn - gn) < 1 := by
            rw [div_lt_one hd]
            linarith
          refine ⟨?_, ?_, ?_⟩
          · rw [hue2rgb_shift_low]
            · field_simp
              ring
            · linarith
            · linarith
          · rw [hue2rgb_p] <;> linarith
          · rw [hue2rgb_q] <;> linarith
        · -- max is b, min is r: hue in [1/2, 2/3)
          have hrg : rn < gn := not_le.mp hgr2
          have hgb2 : gn ≤ bn := le_trans hgle (le_of_eq hMb)
          have hm : m = rn := by
            rw [hmdef, min_eq_left hgb2, min_eq_left (le_of_lt hrg)]
          rw [hMb, hm]
          have hrb2 : rn < bn := hMb ▸ hrM
          have hd : (0:ℚ) < bn - rn := by linarith
          have hdne : bn - rn ≠ 0 := ne_of_gt hd
          have hx0 : (rn - gn)/(bn - rn) < 0 :=
            div_neg_of_neg_of_pos (by linarith) hd
          have hx1 : -1 ≤ (rn - gn)/(bn - rn) := by
            rw [le_div_iff₀ hd]
            linarith
          refine ⟨?_, ?_, ?_⟩
          · rw [hue2rgb_p] <;> linarith
          · rw [hue2rgb_mid]
            · field_simp
              ring
            · linarith
            · linarith
          · rw [hue2rgb_q] <;> linarith



/-- Python `round` is the identity on integers. -/
theorem pyRoundQ_natCast (n : Nat) : pyRoundQ (n : ℚ) = n := by
  unfold pyRoundQ
  rw [Int.floor_natCast]
  rw [if_pos (by push_cast; norm_num : (n : ℚ) - ((n : ℤ) : ℚ) < 1/2)]

/-- The full HSL round trip of `utils/color.py` is the identity on
every RGB triple in the exact rational model: the claimed tolerance of
3 is slack on this half. -/
theorem hsl_roundtrip_exact (r g b : Nat)
    (hr : r ≤ 255) (hg : g ≤ 255) (hb : b ≤ 255) :
    hslRoundTrip r g b = ((r : ℤ), (g : ℤ), (b : ℤ)) := by
  have bound : ∀ n : Nat, n ≤ 255 → 0 ≤ (n : ℚ)/255 ∧ (n : ℚ)/255 ≤ 1 := by
    intro n hn
    constructor
    · positivity
    · rw [div_le_one (by norm_num)]
      exact_mod_cast hn
  have hcore := hsl_core_roundtrip ((r : ℚ)/255) ((g : ℚ)/255) ((b : ℚ)/255)
    (bound r hr).1 (bound r hr).2 (bound g hg).1 (bound g hg).2
    (bound b hb).1 (bound b hb).2
  unfold hslRoundTrip rgb_to_hsl hsl_to_rgb
  dsimp only
  rw [hcore]
  dsimp only
  have hmul : ∀ n : Nat, (n : ℚ)/255 * 255 = (n : ℚ) := by
    intro n
    field_simp
  rw [hmul r, hmul g, hmul b, pyRoundQ_natCast, pyRoundQ_natCast,
    pyRoundQ_natCast]

/-- The HSL half of the round-trip property, with the claimed
tolerance. -/
theorem hsl_roundtrip_within_three : roundTripWithin hslRoundTrip 3 := by
  intro r g b hr hg hb
  rw [hsl_roundtrip_exact r g b hr hg hb]
  norm_num

/-- The first-pass step on the 3 x 1 image deletes facet 1 (point count
2, below threshold 3), vacating its slot. -/
theorem C2_amended_witness :
    (RedState.mk fr13 img13 (List.replicate 3 false)).fr.facets.getD 1
        none = some f1w ∧
    f1w.pointCount < 3 ∧
    (first_pass_step colors13 3
      (RedState.mk fr13 img13 (List.replicate 3 false)) 1).fr.facets.getD
      1 none = none :=
  ⟨by decide, by decide,
    (C2_amended colors13 3 1 (RedState.mk fr13 img13 (List.replicate 3
      false)) f1w (by decide) (by decide)).2 (by decide)⟩

end PBN
